import Mathlib

/-!
Verification development for the expyro run store.

The Python sources under `expyro/` are shallowly embedded below:
pure functions become Lean functions, the filesystem becomes an explicit
`FS` state that every operation threads, Python exceptions become
`Except PyError` (or `Except (PyError ⊕ ε)` when user code can raise an
arbitrary exception of type `ε`), and `pathlib.Path` values become
`PyPath` records carrying their absolute/relative flag.
-/

namespace Expyro

/-- An absolute filesystem path, as the list of its components from the root. -/
abbrev AbsPath := List String

/-- Model of a `pathlib.Path` value: a flag telling whether the path is
absolute, and its components.  A relative path is resolved against the
process working directory by the OS layer (`FS.resolve`). -/
structure PyPath where
  absolute : Bool
  comps : List String
deriving DecidableEq, Repr

/-- Model of the `/` operator on `pathlib.Path`: append components.
Location strings are treated as single components (bare names). -/
def PyPath.join (p : PyPath) (xs : List String) : PyPath :=
  ⟨p.absolute, p.comps ++ xs⟩

/-- Python exception classes raised by the embedded code. -/
inductive PyError where
  | fileNotFoundError
  | fileExistsError
  | assertionError
  | valueError
  | unpicklingError
  | isADirectoryError
  | notADirectoryError
deriving DecidableEq, Repr

/-- Tokens of the opaque pickle encoding (the binary blob format is
implementation defined, so it is modelled as a token alphabet).
Modelled from the spec: `pickle` is a stdlib collaborator, not part of the
repository sources; its encoding is "an opaque, language-defined binary
encoding of an arbitrary value". -/
inductive Tok where
  | tNone
  | tBool (b : Bool)
  | tInt (n : Int)
  | tStr (s : String)
  | tList (len : Nat)
  | tDict (len : Nat)
deriving DecidableEq, Repr

/-- Contents of a file in the modelled filesystem: either a pickle blob or
the rendered output of `Figure.savefig` (an opaque figure handle plus the
file format it was rendered to). -/
inductive FileContent where
  | blob (toks : List Tok)
  | figure (fig : Nat) (fmt : String)
deriving DecidableEq, Repr

/-- The filesystem state: the working directory of the process, the set of
existing directories, and the existing files with their contents. -/
structure FS where
  cwd : AbsPath
  dirs : List AbsPath
  files : List (AbsPath × FileContent)
deriving DecidableEq, Repr

/-- Resolution of a `pathlib.Path` against the working directory: an
absolute path stands for itself, a relative one is interpreted relative to
the process working directory. -/
def FS.resolve (fs : FS) (p : PyPath) : AbsPath :=
  if p.absolute then p.comps else fs.cwd ++ p.comps

/-- Content of the file at an absolute path, if a file exists there. -/
def readFileAbs? (fs : FS) (a : AbsPath) : Option FileContent :=
  (fs.files.find? (fun e => e.1 = a)).map Prod.snd

/-- Content of the file at a `pathlib.Path`, if a file exists there. -/
def readFile? (fs : FS) (p : PyPath) : Option FileContent :=
  readFileAbs? fs (fs.resolve p)

/-- Truth of `Path.is_dir()` for an absolute path. -/
def isDirAbs (fs : FS) (a : AbsPath) : Bool :=
  a ∈ fs.dirs

/-- Truth of `Path.is_dir()`. -/
def isDir (fs : FS) (p : PyPath) : Bool :=
  isDirAbs fs (fs.resolve p)

/-- Truth of `Path.exists()` for an absolute path: a directory or a file
lives there. -/
def pathExistsAbs (fs : FS) (a : AbsPath) : Bool :=
  a ∈ fs.dirs || (readFileAbs? fs a).isSome

/-- Truth of `Path.exists()`. -/
def pathExists (fs : FS) (p : PyPath) : Bool :=
  pathExistsAbs fs (fs.resolve p)

/-- Model of `open(path, "wb")` followed by a full write: the file at the
resolved path is created or truncated and receives the given content. -/
def setFileAbs (fs : FS) (a : AbsPath) (c : FileContent) : FS :=
  { fs with files := (a, c) :: fs.files.filter (fun e => ¬ e.1 = a) }

/-- Write through a `pathlib.Path`. -/
def setFile (fs : FS) (p : PyPath) (c : FileContent) : FS :=
  setFileAbs fs (fs.resolve p) c

/-- Model of `Path.mkdir(parents=True, exist_ok=False)`: fails with
`FileExistsError` if anything already lives at the exact target path,
fails with `NotADirectoryError` if a proper prefix of the target is an
existing file, and otherwise creates the target directory together with
all its missing ancestors. -/
def mkdirParentsExcl (fs : FS) (p : PyPath) : Except PyError FS :=
  if pathExistsAbs fs (fs.resolve p) then .error .fileExistsError
  else if (fs.resolve p).inits.any
      (fun q => (¬ q = fs.resolve p) && (readFileAbs? fs q).isSome) then
    .error .notADirectoryError
  else .ok { fs with
    dirs := (fs.resolve p).inits.filter (fun q => ¬ q ∈ fs.dirs) ++ fs.dirs }

/-- Model of `Path.mkdir(parents=True, exist_ok=True)` (used by the hook's
data directory): existing directories are accepted silently. -/
def mkdirParentsOk (fs : FS) (p : PyPath) : FS :=
  { fs with
    dirs := (fs.resolve p).inits.filter (fun q => ¬ q ∈ fs.dirs) ++ fs.dirs }

/-- Model of `Path.mkdir(exist_ok=True)` (used by `Plotter.__call__` for
the per-artist subfolder): an existing directory is fine, an existing
file at the target raises `FileExistsError`. -/
def mkdirOk (fs : FS) (p : PyPath) : Except PyError FS :=
  if fs.resolve p ∈ fs.dirs then .ok fs
  else if (readFileAbs? fs (fs.resolve p)).isSome then .error .fileExistsError
  else .ok { fs with dirs := fs.resolve p :: fs.dirs }

/-- Well-formed filesystem: every file hangs under an existing directory
and the set of directories is closed under taking parents. -/
def FS.WF (fs : FS) : Prop :=
  (∀ e ∈ fs.files, e.1 ≠ [] ∧ e.1.dropLast ∈ fs.dirs) ∧
  (∀ d ∈ fs.dirs, d ≠ [] → d.dropLast ∈ fs.dirs)

instance (fs : FS) : Decidable fs.WF :=
  decidable_of_iff ((∀ e ∈ fs.files, e.1 ≠ [] ∧ e.1.dropLast ∈ fs.dirs) ∧
    (∀ d ∈ fs.dirs, d ≠ [] → d.dropLast ∈ fs.dirs)) Iff.rfl

/-! ### Decimal rendering of the collision counter

`unique_new_path` renders its counter with a Python f-string, i.e. in
decimal.  The rendering is embedded below and proved injective, which the
resolver proofs need (distinct counters give distinct candidate names). -/

/-- Digit character of a decimal digit. -/
def digitChar (d : Nat) : Char :=
  match d with
  | 0 => '0' | 1 => '1' | 2 => '2' | 3 => '3' | 4 => '4'
  | 5 => '5' | 6 => '6' | 7 => '7' | 8 => '8' | 9 => '9'
  | _ => '*'

/-- Little-endian decimal digits of `n`, with explicit fuel (the fuel is
only there to make the recursion structural; `fuel ≥ n` is enough). -/
def natDigitsAux : Nat → Nat → List Nat
  | 0, _ => []
  | _ + 1, 0 => []
  | fuel + 1, n + 1 => ((n + 1) % 10) :: natDigitsAux fuel ((n + 1) / 10)

/-- Little-endian decimal digits of `n`. -/
def natDigits (n : Nat) : List Nat :=
  natDigitsAux n n

/-- Value of a little-endian digit list. -/
def evalDigits : List Nat → Nat
  | [] => 0
  | d :: ds => d + 10 * evalDigits ds

/-- Decimal rendering of a positive integer, modelling the Python
f-string interpolation of the counter. -/
def natStr (n : Nat) : String :=
  String.mk ((natDigits n).reverse.map digitChar)

theorem evalDigits_natDigitsAux (fuel : Nat) :
    ∀ n, n ≤ fuel → evalDigits (natDigitsAux fuel n) = n := by
  induction fuel with
  | zero => intro n hn; interval_cases n; rfl
  | succ fuel ih =>
    intro n hn
    match n with
    | 0 => rfl
    | m + 1 =>
      have hdiv : (m + 1) / 10 ≤ fuel := by
        have := Nat.div_le_self (m + 1) 10
        have h2 : (m + 1) / 10 < m + 1 := Nat.div_lt_self (Nat.succ_pos m) (by norm_num)
        omega
      simp only [natDigitsAux, evalDigits, ih _ hdiv]
      omega

theorem natDigits_injective : Function.Injective natDigits := by
  intro a b h
  have ha := evalDigits_natDigitsAux a a le_rfl
  have hb := evalDigits_natDigitsAux b b le_rfl
  rw [natDigits, natDigits] at h
  rw [← ha, ← hb, h]

theorem natDigitsAux_lt_ten (fuel : Nat) :
    ∀ n, ∀ d ∈ natDigitsAux fuel n, d < 10 := by
  induction fuel with
  | zero => intro n d hd; simp [natDigitsAux] at hd
  | succ fuel ih =>
    intro n d hd
    match n with
    | 0 => simp [natDigitsAux] at hd
    | m + 1 =>
      simp only [natDigitsAux, List.mem_cons] at hd
      rcases hd with h | h
      · subst h; exact Nat.mod_lt _ (by norm_num)
      · exact ih _ _ h

theorem digitChar_inj_fin :
    ∀ a b : Fin 10, digitChar a.val = digitChar b.val → a = b := by decide

theorem digitChar_inj {a b : Nat} (ha : a < 10) (hb : b < 10)
    (h : digitChar a = digitChar b) : a = b := by
  have := digitChar_inj_fin ⟨a, ha⟩ ⟨b, hb⟩ h
  exact congrArg Fin.val this

theorem map_digitChar_inj :
    ∀ {l₁ l₂ : List Nat}, (∀ d ∈ l₁, d < 10) → (∀ d ∈ l₂, d < 10) →
      l₁.map digitChar = l₂.map digitChar → l₁ = l₂ := by
  intro l₁
  induction l₁ with
  | nil => intro l₂ _ _ h; cases l₂ <;> simp_all
  | cons a as ih =>
    intro l₂ h₁ h₂ h
    cases l₂ with
    | nil => simp at h
    | cons b bs =>
      simp only [List.map_cons, List.cons.injEq] at h
      have ha : a = b := digitChar_inj (h₁ a (by simp)) (h₂ b (by simp)) h.1
      have hs : as = bs := ih (fun d hd => h₁ d (by simp [hd]))
        (fun d hd => h₂ d (by simp [hd])) h.2
      simp [ha, hs]

theorem natStr_injective : Function.Injective natStr := by
  intro a b h
  have hdata : ((natDigits a).reverse.map digitChar) =
      ((natDigits b).reverse.map digitChar) := congrArg String.data h
  have ha : ∀ d ∈ (natDigits a).reverse, d < 10 := by
    intro d hd; exact natDigitsAux_lt_ten a a d (List.mem_reverse.mp hd)
  have hb : ∀ d ∈ (natDigits b).reverse, d < 10 := by
    intro d hd; exact natDigitsAux_lt_ten b b d (List.mem_reverse.mp hd)
  have := map_digitChar_inj ha hb hdata
  exact natDigits_injective (List.reverse_injective this)

/-- Candidate name built by `unique_new_path`: the Python expression
`f"{stem} ({counter}){suffix}"`. -/
def mkName (stem : String) (counter : Nat) (suffix : String) : String :=
  stem ++ " (" ++ natStr counter ++ ")" ++ suffix

theorem mkName_inj {stem suffix : String} {n m : Nat}
    (h : mkName stem n suffix = mkName stem m suffix) : n = m := by
  have hd := congrArg String.data h
  simp only [mkName, String.data_append, List.append_assoc] at hd
  have h1 := List.append_cancel_left hd
  have h2 := List.append_cancel_left h1
  rw [← List.append_assoc, ← List.append_assoc] at h2
  have h3 := List.append_cancel_right h2
  have h4 := List.append_cancel_right h3
  exact natStr_injective (String.ext h4)

/-! ### `util.unique_new_path` (the NameResolver)

The Python function receives one desired `Path`; here the path is given
as its parent directory together with the `stem`/`suffix` decomposition
that `Path.stem` and `Path.suffix` produce (the desired name is
`stem ++ suffix`, and `suffix` is the extension including its dot, or
`""` when there is none). -/

/-- The counter loop of `unique_new_path`: starting at `c`, return the
first counter whose candidate name does not exist.  The fuel only makes
the recursion structural; `unique_new_path` passes enough of it. -/
def findCounter (fs : FS) (parent : PyPath) (stem suffix : String) : Nat → Nat → Nat
  | c, 0 => c
  | c, fuel + 1 =>
    if pathExists fs (parent.join [mkName stem c suffix]) then
      findCounter fs parent stem suffix (c + 1) fuel
    else c

/-- Embedding of `expyro.util.unique_new_path`: if the desired path does
not exist return it unchanged, otherwise append `" (n)"` before the
extension with the smallest counter `n ≥ 1` whose name is unused. -/
def unique_new_path (fs : FS) (parent : PyPath) (stem suffix : String) : PyPath :=
  if pathExists fs (parent.join [stem ++ suffix]) then
    parent.join
      [mkName stem
        (findCounter fs parent stem suffix 1 (fs.dirs.length + fs.files.length + 1)) suffix]
  else parent.join [stem ++ suffix]

theorem resolve_join (fs : FS) (p : PyPath) (xs : List String) :
    fs.resolve (p.join xs) = fs.resolve p ++ xs := by
  simp only [FS.resolve, PyPath.join]
  by_cases h : p.absolute <;> simp [h]

theorem readFileAbs?_isSome_iff (fs : FS) (a : AbsPath) :
    (readFileAbs? fs a).isSome = true ↔ a ∈ fs.files.map Prod.fst := by
  rw [readFileAbs?]
  cases hfind : fs.files.find? (fun e => e.1 = a) with
  | none =>
    simp only [Option.map_none', Option.isSome_none, Bool.false_eq_true, false_iff]
    intro h
    rcases List.mem_map.mp h with ⟨e, he, hfst⟩
    have := List.find?_eq_none.mp hfind e he
    simp [hfst] at this
  | some e =>
    simp only [Option.map_some', Option.isSome_some, true_iff]
    have h1 := List.mem_of_find?_eq_some hfind
    have h2 := List.find?_some hfind
    simp only [decide_eq_true_eq] at h2
    exact List.mem_map.mpr ⟨e, h1, h2⟩

theorem pathExistsAbs_iff_mem (fs : FS) (a : AbsPath) :
    pathExistsAbs fs a = true ↔ a ∈ fs.dirs ++ fs.files.map Prod.fst := by
  rw [pathExistsAbs, Bool.or_eq_true, List.mem_append]
  exact or_congr (by simp) (readFileAbs?_isSome_iff fs a)

theorem exists_free_counter (fs : FS) (parent : PyPath) (stem suffix : String) (c : Nat) :
    ∃ k ≤ fs.dirs.length + fs.files.length,
      pathExists fs (parent.join [mkName stem (c + k) suffix]) = false := by
  by_contra hcon
  push_neg at hcon
  have htaken : ∀ k ≤ fs.dirs.length + fs.files.length,
      pathExists fs (parent.join [mkName stem (c + k) suffix]) = true := by
    intro k hk
    have := hcon k hk
    exact Bool.not_eq_false _ ▸ (by simpa using this)
  set bound := fs.dirs.length + fs.files.length with hbound
  set f : Fin (bound + 1) → AbsPath :=
    fun k => fs.resolve parent ++ [mkName stem (c + k.val) suffix] with hf
  have hmem : ∀ k, f k ∈ fs.dirs ++ fs.files.map Prod.fst := by
    intro k
    have h1 := htaken k.val (Nat.lt_succ_iff.mp k.isLt)
    rw [pathExists, resolve_join] at h1
    exact (pathExistsAbs_iff_mem fs _).mp h1
  have hinj : Function.Injective f := by
    intro k1 k2 h
    simp only [hf, List.append_cancel_left_eq, List.cons.injEq, and_true] at h
    have := mkName_inj h
    exact Fin.ext (by omega)
  have hsub : Finset.univ.image f ⊆ (fs.dirs ++ fs.files.map Prod.fst).toFinset := by
    intro a ha
    rcases Finset.mem_image.mp ha with ⟨k, _, rfl⟩
    exact List.mem_toFinset.mpr (hmem k)
  have hcard := Finset.card_le_card hsub
  rw [Finset.card_image_of_injective _ hinj, Finset.card_univ, Fintype.card_fin] at hcard
  have hlen := List.toFinset_card_le (fs.dirs ++ fs.files.map Prod.fst)
  rw [List.length_append, List.length_map] at hlen
  omega

theorem findCounter_spec (fs : FS) (parent : PyPath) (stem suffix : String) :
    ∀ fuel c,
      (∃ k ≤ fuel, pathExists fs (parent.join [mkName stem (c + k) suffix]) = false) →
      c ≤ findCounter fs parent stem suffix c fuel ∧
      pathExists fs
        (parent.join [mkName stem (findCounter fs parent stem suffix c fuel) suffix]) = false ∧
      ∀ j, c ≤ j → j < findCounter fs parent stem suffix c fuel →
        pathExists fs (parent.join [mkName stem j suffix]) = true := by
  intro fuel
  induction fuel with
  | zero =>
    intro c h
    obtain ⟨k, hk, hfree⟩ := h
    interval_cases k
    refine ⟨le_rfl, by simpa [findCounter] using hfree, ?_⟩
    intro j h1 h2
    simp [findCounter] at h2
    omega
  | succ fuel ih =>
    intro c h
    by_cases htaken : pathExists fs (parent.join [mkName stem c suffix]) = true
    · have hrec : findCounter fs parent stem suffix c (fuel + 1) =
          findCounter fs parent stem suffix (c + 1) fuel := by
        simp [findCounter, htaken]
      have h' : ∃ k ≤ fuel,
          pathExists fs (parent.join [mkName stem (c + 1 + k) suffix]) = false := by
        obtain ⟨k, hk, hfree⟩ := h
        match k with
        | 0 => rw [Nat.add_zero] at hfree; rw [htaken] at hfree; exact absurd hfree (by simp)
        | k + 1 =>
          refine ⟨k, by omega, ?_⟩
          have harith : c + 1 + k = c + (k + 1) := by omega
          rw [harith]
          exact hfree
      obtain ⟨h1, h2, h3⟩ := ih (c + 1) h'
      rw [hrec]
      refine ⟨Nat.le_trans (Nat.le_succ c) h1, h2, ?_⟩
      intro j hcj hjr
      rcases Nat.eq_or_lt_of_le hcj with heq | hlt
      · exact heq ▸ htaken
      · exact h3 j hlt hjr
    · have hfree : pathExists fs (parent.join [mkName stem c suffix]) = false :=
        Bool.not_eq_true _ ▸ (by simpa using htaken)
      have hrec : findCounter fs parent stem suffix c (fuel + 1) = c := by
        simp [findCounter, hfree]
      rw [hrec]
      exact ⟨le_rfl, hfree, fun j h1 h2 => absurd (by omega : c < c) (by omega)⟩

/-- The result of `unique_new_path` never names an existing path. -/
theorem unique_new_path_not_exists (fs : FS) (parent : PyPath) (stem suffix : String) :
    pathExists fs (unique_new_path fs parent stem suffix) = false := by
  rw [unique_new_path]
  by_cases h : pathExists fs (parent.join [stem ++ suffix]) = true
  · rw [if_pos h]
    obtain ⟨k, hk, hfree⟩ :=
      exists_free_counter fs parent stem suffix 1
    exact (findCounter_spec fs parent stem suffix (fs.dirs.length + fs.files.length + 1) 1
      ⟨k, by omega, hfree⟩).2.1
  · rw [if_neg h]
    exact Bool.not_eq_true _ ▸ (by simpa using h)

/-- The result of `unique_new_path` lives in the given parent directory
and is either the desired name or a counter-suffixed variant of it. -/
theorem unique_new_path_shape (fs : FS) (parent : PyPath) (stem suffix : String) :
    ∃ nm, unique_new_path fs parent stem suffix = parent.join [nm] ∧
      (nm = stem ++ suffix ∨ ∃ n, 1 ≤ n ∧ nm = mkName stem n suffix) := by
  rw [unique_new_path]
  by_cases h : pathExists fs (parent.join [stem ++ suffix]) = true
  · rw [if_pos h]
    refine ⟨_, rfl, Or.inr ⟨_, ?_, rfl⟩⟩
    obtain ⟨k, hk, hfree⟩ := exists_free_counter fs parent stem suffix 1
    exact (findCounter_spec fs parent stem suffix (fs.dirs.length + fs.files.length + 1) 1
      ⟨k, by omega, hfree⟩).1
  · rw [if_neg h]
    exact ⟨_, rfl, Or.inl rfl⟩

/-! ### Serializer payloads

Configurations and results are arbitrary Python data.  `PyValue` models
such values (primitives, lists and dicts of them); `pickle`/`unpickle`
model the stdlib pickle encoder and decoder over the token alphabet
`Tok`, with the round trip proved below.  Modelled from the spec:
`pickle` itself is a stdlib collaborator outside the repository sources;
the spec only fixes its round-trip contract. -/

inductive PyValue where
  | pyNone
  | pyBool (b : Bool)
  | pyInt (n : Int)
  | pyStr (s : String)
  | pyList (xs : List PyValue)
  | pyDict (entries : List (String × PyValue))

mutual

/-- Encoder of the modelled pickle format. -/
def pickle : PyValue → List Tok
  | .pyNone => [.tNone]
  | .pyBool b => [.tBool b]
  | .pyInt n => [.tInt n]
  | .pyStr s => [.tStr s]
  | .pyList xs => .tList xs.length :: pickleList xs
  | .pyDict es => .tDict es.length :: pickleDict es

/-- Encoder for the elements of a list value. -/
def pickleList : List PyValue → List Tok
  | [] => []
  | x :: xs => pickle x ++ pickleList xs

/-- Encoder for the entries of a dict value. -/
def pickleDict : List (String × PyValue) → List Tok
  | [] => []
  | (k, v) :: es => .tStr k :: (pickle v ++ pickleDict es)

end

mutual

/-- Nesting depth of a value (drives the decoder's fuel). -/
def depth : PyValue → Nat
  | .pyList xs => depthList xs + 1
  | .pyDict es => depthDict es + 1
  | _ => 1

/-- Largest nesting depth among the elements of a list value. -/
def depthList : List PyValue → Nat
  | [] => 0
  | x :: xs => max (depth x) (depthList xs)

/-- Largest nesting depth among the entries of a dict value. -/
def depthDict : List (String × PyValue) → Nat
  | [] => 0
  | (_, v) :: es => max (depth v) (depthDict es)

end

mutual

/-- Decoder of the modelled pickle format; consumes one value and returns
the remaining tokens.  The fuel bounds the nesting depth. -/
def unpickleAux : Nat → List Tok → Option (PyValue × List Tok)
  | 0, _ => none
  | _ + 1, [] => none
  | fuel + 1, .tNone :: rest => some (.pyNone, rest)
  | _ + 1, .tBool b :: rest => some (.pyBool b, rest)
  | _ + 1, .tInt n :: rest => some (.pyInt n, rest)
  | _ + 1, .tStr s :: rest => some (.pyStr s, rest)
  | fuel + 1, .tList len :: rest =>
    (unpickleMany fuel len rest).map (fun p => (.pyList p.1, p.2))
  | fuel + 1, .tDict len :: rest =>
    (unpickleEntries fuel len rest).map (fun p => (.pyDict p.1, p.2))
termination_by fuel toks => (fuel, 0)

/-- Decoder for a known number of consecutive list elements. -/
def unpickleMany : Nat → Nat → List Tok → Option (List PyValue × List Tok)
  | _, 0, toks => some ([], toks)
  | fuel, n + 1, toks =>
    (unpickleAux fuel toks).bind
      (fun p => (unpickleMany fuel n p.2).map (fun q => (p.1 :: q.1, q.2)))
termination_by fuel n toks => (fuel, n + 1)

/-- Decoder for a known number of consecutive dict entries. -/
def unpickleEntries : Nat → Nat → List Tok → Option (List (String × PyValue) × List Tok)
  | _, 0, toks => some ([], toks)
  | fuel, n + 1, .tStr k :: r0 =>
    (unpickleAux fuel r0).bind
      (fun p => (unpickleEntries fuel n p.2).map (fun q => ((k, p.1) :: q.1, q.2)))
  | _, _ + 1, _ => none
termination_by fuel n toks => (fuel, n + 1)

end

/-- Decoder entry point: a blob decodes iff one value consumes it all. -/
def unpickle (toks : List Tok) : Option PyValue :=
  match unpickleAux (toks.length + 1) toks with
  | some (v, []) => some v
  | _ => none

theorem depth_pos (v : PyValue) : 1 ≤ depth v := by
  cases v <;> simp [depth]

theorem depth_le_depthList {x : PyValue} {l : List PyValue} (hx : x ∈ l) :
    depth x ≤ depthList l := by
  induction l with
  | nil => simp at hx
  | cons y ys ih =>
    rcases List.mem_cons.mp hx with h | h
    · subst h; simp [depthList]
    · have := ih h
      simp only [depthList]
      omega

theorem depth_le_depthDict {k : String} {v : PyValue} {l : List (String × PyValue)}
    (hx : (k, v) ∈ l) : depth v ≤ depthDict l := by
  induction l with
  | nil => simp at hx
  | cons e es ih =>
    rcases List.mem_cons.mp hx with h | h
    · subst h; simp [depthDict]
    · have := ih h
      obtain ⟨k', v'⟩ := e
      simp only [depthDict]
      omega

theorem depth_le_pickle_length_fueled :
    ∀ fuel : Nat,
      (∀ v : PyValue, sizeOf v ≤ fuel → depth v ≤ (pickle v).length) ∧
      (∀ l : List PyValue, sizeOf l ≤ fuel → depthList l ≤ (pickleList l).length) ∧
      (∀ l : List (String × PyValue), sizeOf l ≤ fuel → depthDict l ≤ (pickleDict l).length) := by
  intro fuel
  induction fuel with
  | zero =>
    refine ⟨fun v hv => ?_, fun l hl => ?_, fun l hl => ?_⟩
    · cases v <;> simp_all
    · cases l <;> simp_all
    · cases l <;> simp_all
  | succ fuel ih =>
    obtain ⟨ihv, ihl, ihd⟩ := ih
    refine ⟨fun v hv => ?_, fun l hl => ?_, fun l hl => ?_⟩
    · cases v with
      | pyNone => simp [depth, pickle]
      | pyBool b => simp [depth, pickle]
      | pyInt n => simp [depth, pickle]
      | pyStr s => simp [depth, pickle]
      | pyList xs =>
        have hxs : sizeOf xs ≤ fuel := by
          have : sizeOf (PyValue.pyList xs) = 1 + sizeOf xs := by simp
          omega
        have := ihl xs hxs
        simp only [depth, pickle, List.length_cons]
        omega
      | pyDict es =>
        have hes : sizeOf es ≤ fuel := by
          have : sizeOf (PyValue.pyDict es) = 1 + sizeOf es := by simp
          omega
        have := ihd es hes
        simp only [depth, pickle, List.length_cons]
        omega
    · cases l with
      | nil => simp [depthList, pickleList]
      | cons x xs =>
        have hx : sizeOf x ≤ fuel := by
          have : sizeOf (x :: xs) = 1 + sizeOf x + sizeOf xs := by simp
          have hp := Nat.le_add_right 0 (sizeOf xs)
          omega
        have hxs : sizeOf xs ≤ fuel := by
          have : sizeOf (x :: xs) = 1 + sizeOf x + sizeOf xs := by simp
          omega
        have h1 := ihv x hx
        have h2 := ihl xs hxs
        simp only [depthList, pickleList, List.length_append]
        omega
    · cases l with
      | nil => simp [depthDict, pickleDict]
      | cons e es =>
        obtain ⟨k, v⟩ := e
        have hv : sizeOf v ≤ fuel := by
          have : sizeOf ((k, v) :: es) = 1 + (1 + sizeOf k + sizeOf v) + sizeOf es := by simp
          omega
        have hes : sizeOf es ≤ fuel := by
          have : sizeOf ((k, v) :: es) = 1 + (1 + sizeOf k + sizeOf v) + sizeOf es := by simp
          omega
        have h1 := ihv v hv
        have h2 := ihd es hes
        simp only [depthDict, pickleDict, List.length_cons, List.length_append]
        omega

theorem depth_le_pickle_length (v : PyValue) : depth v ≤ (pickle v).length :=
  (depth_le_pickle_length_fueled (sizeOf v)).1 v le_rfl

theorem unpickleAux_pickle :
    ∀ fuel : Nat, ∀ v : PyValue, ∀ rest : List Tok, depth v < fuel →
      unpickleAux fuel (pickle v ++ rest) = some (v, rest) := by
  intro fuel
  induction fuel with
  | zero =>
    intro v rest h
    have := depth_pos v
    omega
  | succ fuel ih =>
    intro v rest h
    have hmany : ∀ l : List PyValue, ∀ r : List Tok, (∀ x ∈ l, depth x < fuel) →
        unpickleMany fuel l.length (pickleList l ++ r) = some (l, r) := by
      intro l
      induction l with
      | nil => intro r _; simp [pickleList, unpickleMany]
      | cons x xs ihl =>
        intro r hx
        simp only [pickleList, List.length_cons, List.append_assoc]
        rw [unpickleMany]
        rw [ih x _ (hx x (by simp))]
        rw [Option.some_bind]
        rw [ihl _ (fun y hy => hx y (by simp [hy]))]
        rfl
    have hentries : ∀ l : List (String × PyValue), ∀ r : List Tok,
        (∀ e ∈ l, depth e.2 < fuel) →
        unpickleEntries fuel l.length (pickleDict l ++ r) = some (l, r) := by
      intro l
      induction l with
      | nil => intro r _; simp [pickleDict, unpickleEntries]
      | cons e es ihl =>
        intro r he
        obtain ⟨k, v'⟩ := e
        simp only [pickleDict, List.length_cons, List.cons_append, List.append_assoc]
        rw [unpickleEntries]
        rw [ih v' _ (he (k, v') (by simp))]
        rw [Option.some_bind]
        rw [ihl _ (fun y hy => he y (by simp [hy]))]
        rfl
    cases v with
    | pyNone => simp [pickle, unpickleAux]
    | pyBool b => simp [pickle, unpickleAux]
    | pyInt n => simp [pickle, unpickleAux]
    | pyStr s => simp [pickle, unpickleAux]
    | pyList xs =>
      have hdep : depth (PyValue.pyList xs) = depthList xs + 1 := by rw [depth]
      have hx : ∀ x ∈ xs, depth x < fuel := by
        intro x hxm
        have h1 : depth x ≤ depthList xs := depth_le_depthList hxm
        omega
      simp only [pickle, List.cons_append]
      rw [unpickleAux]
      rw [hmany xs rest hx]
      rfl
    | pyDict es =>
      have hdep : depth (PyValue.pyDict es) = depthDict es + 1 := by rw [depth]
      have hx : ∀ e ∈ es, depth e.2 < fuel := by
        intro e hem
        have h1 : depth e.2 ≤ depthDict es := by
          obtain ⟨k, v'⟩ := e
          exact depth_le_depthDict hem
        omega
      simp only [pickle, List.cons_append]
      rw [unpickleAux]
      rw [hentries es rest hx]
      rfl

/-- The pickle round trip: decoding an encoded value gives it back. -/
theorem unpickle_pickle (v : PyValue) : unpickle (pickle v) = some v := by
  rw [unpickle]
  have h := unpickleAux_pickle ((pickle v).length + 1) v []
    (by have := depth_le_pickle_length v; omega)
  rw [List.append_nil] at h
  rw [h]

/-! ### `_serialization.py` -/

/-- Embedding of `_serialization.dump`: write the pickle blob of `obj` to
`path` through `open(path, "wb")`.  Opening for writing fails on an
existing directory at the target and on a missing parent directory. -/
def dump (fs : FS) (obj : PyValue) (path : PyPath) : Except PyError FS :=
  if fs.resolve path ∈ fs.dirs then .error .isADirectoryError
  else if ¬ isDirAbs fs (fs.resolve path).dropLast then .error .fileNotFoundError
  else .ok (setFileAbs fs (fs.resolve path) (.blob (pickle obj)))

/-- Embedding of `_serialization.load`: raise `FileNotFoundError` when
nothing exists at `path` (before any I/O), otherwise open and unpickle. -/
def load (fs : FS) (path : PyPath) : Except PyError PyValue :=
  if ¬ pathExists fs path then .error .fileNotFoundError
  else
    match readFile? fs path with
    | some (.blob toks) =>
      match unpickle toks with
      | some v => .ok v
      | none => .error .unpicklingError
    | some (.figure _ _) => .error .unpicklingError
    | none => .error .isADirectoryError

/-- Embedding of `dump_config`: `assert folder.exists()` then dump to
`folder / "config.pkl"`. -/
def dump_config (fs : FS) (config : PyValue) (folder : PyPath) : Except PyError FS :=
  if pathExists fs folder then dump fs config (folder.join ["config.pkl"])
  else .error .assertionError

/-- Embedding of `dump_result`. -/
def dump_result (fs : FS) (result : PyValue) (folder : PyPath) : Except PyError FS :=
  if pathExists fs folder then dump fs result (folder.join ["result.pkl"])
  else .error .assertionError

/-- Embedding of `load_config`: `assert folder.is_dir()` then load from
`folder / "config.pkl"`. -/
def load_config (fs : FS) (folder : PyPath) : Except PyError PyValue :=
  if isDir fs folder then load fs (folder.join ["config.pkl"])
  else .error .assertionError

/-- Embedding of `load_result`. -/
def load_result (fs : FS) (folder : PyPath) : Except PyError PyValue :=
  if isDir fs folder then load fs (folder.join ["result.pkl"])
  else .error .assertionError

/-- Embedding of `has_config`. -/
def has_config (fs : FS) (folder : PyPath) : Bool :=
  pathExists fs (folder.join ["config.pkl"])

/-- Embedding of `has_result`. -/
def has_result (fs : FS) (folder : PyPath) : Bool :=
  pathExists fs (folder.join ["result.pkl"])

/-! ### `_hook.py`

The module declares `context = ContextVar("dump_context", default=None)`.
No code in the repository ever sets this variable; the embedding threads
its current value explicitly through every operation that can observe
it. -/

/-- Embedding of `_hook.hook`: read the context variable; raise
`ValueError("Context for current run was empty.")` when it is unset,
otherwise create `<run>/data/` and open the named file inside it (the
opened path is returned together with the updated filesystem). -/
def hook (fs : FS) (context : Option PyPath) (name : String) :
    Except PyError (FS × PyPath) :=
  match context with
  | none => .error .valueError
  | some path =>
    .ok (mkdirParentsOk fs (path.join ["data"]), (path.join ["data"]).join [name])

/-! ### `Plotter` (`_experiment.py`) -/

/-- Return value of an artist callback: one figure or a name → figure
mapping (figures are opaque matplotlib handles, modelled as `Nat`). -/
inductive Plot where
  | single (fig : Nat)
  | mapping (entries : List (String × Nat))

/-- Embedding of the `Plotter` construction parameters.  `artistName`
models `self.artist.__name__`; the save kwargs are dropped (they only
parameterize the opaque rendering). -/
structure Plotter where
  artist : PyValue → PyValue → Plot
  artistName : String
  file_format : String
  showFlag : Bool

/-- State threaded through plotting: the filesystem plus the set of
figure handles that matplotlib currently holds open. -/
structure PlotState where
  fs : FS
  openFigs : List Nat

/-- Embedding of `Plotter.__dump_figure`:
`figure.savefig(folder / f"{name}.{self.file_format}", ...)`, then
`plt.show()` when configured, then `plt.close(figure)`.  A raising
`savefig` (modelled by `savefigErr`) aborts the statement sequence, so
the close is not reached on that path. -/
def Plotter.dump_figure {ε : Type} (p : Plotter) (savefigErr : Nat → Option ε)
    (st : PlotState) (figure : Nat) (folder : PyPath) (name : String) :
    PlotState × Option ε :=
  match savefigErr figure with
  | some e => (st, some e)
  | none =>
    let st1 := { st with
      fs := setFile st.fs (folder.join [name ++ "." ++ p.file_format])
        (.figure figure p.file_format) }
    ({ st1 with openFigs := st1.openFigs.filter (fun g => ¬ g = figure) }, none)

/-- The `for name, figure in result.items()` loop of `Plotter.__call__`. -/
def Plotter.dumpEntries {ε : Type} (p : Plotter) (savefigErr : Nat → Option ε)
    (folder : PyPath) : PlotState → List (String × Nat) → PlotState × Option ε
  | st, [] => (st, none)
  | st, (nm, fg) :: rest =>
    match p.dump_figure savefigErr st fg folder nm with
    | (st1, some e) => (st1, some e)
    | (st1, none) => p.dumpEntries savefigErr folder st1 rest

/-- Embedding of `Plotter.__call__`: run the artist; a mapping goes into
a per-artist subfolder (`mkdir(exist_ok=True)`), a single figure goes
directly into the target folder under the artist's name. -/
def Plotter.call {ε : Type} (p : Plotter) (savefigErr : Nat → Option ε)
    (st : PlotState) (config result : PyValue) (directory : PyPath) :
    PlotState × Option (PyError ⊕ ε) :=
  match p.artist config result with
  | .mapping entries =>
    match mkdirOk st.fs (directory.join [p.artistName]) with
    | .error pe => (st, some (.inl pe))
    | .ok fs1 =>
      match p.dumpEntries savefigErr (directory.join [p.artistName])
          { st with fs := fs1 } entries with
      | (st1, some e) => (st1, some (.inr e))
      | (st1, none) => (st1, none)
  | .single fg =>
    match p.dump_figure savefigErr st fg directory p.artistName with
    | (st1, some e) => (st1, some (.inr e))
    | (st1, none) => (st1, none)

/-! ### `Experiment` and `Run` (`_experiment.py`) -/

/-- Embedding of the `Experiment` object: the wrapped procedure (which
may raise an arbitrary user exception of type `ε`, and observes the
ambient hook context), the root directory, the experiment name and the
registered plotters. -/
structure Experiment (ε : Type) where
  procedure : PyValue → Option PyPath → Except ε PyValue
  directory : PyPath
  name : String
  plotters : List Plotter

/-- A location reference: a bare string or a `pathlib.Path` value. -/
inductive Loc where
  | str (s : String)
  | path (p : PyPath)

/-- Embedding of `Experiment.__folder`: no location gives
`directory / name`, a string gives `directory / name / location`, and a
path value is returned verbatim. -/
def Experiment.folder {ε : Type} (exp : Experiment ε) : Option Loc → PyPath
  | none => exp.directory.join [exp.name]
  | some (.str s) => exp.directory.join [exp.name, s]
  | some (.path p) => p

/-- Embedding of `Experiment.__make_folder`: the timestamp renders
`datetime.now()`; the folder is created with
`mkdir(parents=True, exist_ok=False)`. -/
def Experiment.make_folder {ε : Type} (exp : Experiment ε) (fs : FS)
    (timestamp : String) : Except PyError (FS × PyPath) :=
  match mkdirParentsExcl fs ((exp.folder Option.none).join [timestamp]) with
  | .error e => .error e
  | .ok fs1 => .ok (fs1, (exp.folder Option.none).join [timestamp])

/-- Embedding of `Experiment.config`. -/
def Experiment.config {ε : Type} (exp : Experiment ε) (fs : FS) (location : Loc) :
    Except PyError PyValue :=
  load_config fs (exp.folder (some location))

/-- Embedding of `Experiment.result`. -/
def Experiment.result {ε : Type} (exp : Experiment ε) (fs : FS) (location : Loc) :
    Except PyError PyValue :=
  load_result fs (exp.folder (some location))

/-- The `for plotter in self.plotters` loop of `Experiment.plot`. -/
def plotAll {ε : Type} (savefigErr : Nat → Option ε) :
    PlotState → List Plotter → PyValue → PyValue → PyPath →
    PlotState × Option (PyError ⊕ ε)
  | st, [], _, _, _ => (st, none)
  | st, p :: ps, config, result, folder =>
    match p.call savefigErr st config result folder with
    | (st1, some e) => (st1, some e)
    | (st1, none) => plotAll savefigErr st1 ps config result folder

/-- Embedding of `Experiment.plot`. -/
def Experiment.plot {ε : Type} (exp : Experiment ε) (savefigErr : Nat → Option ε)
    (st : PlotState) (config result : PyValue) (folder : PyPath) :
    PlotState × Option (PyError ⊕ ε) :=
  plotAll savefigErr st exp.plotters config result folder

/-- Embedding of a `Run` record. -/
structure Run where
  config : PyValue
  result : PyValue
  location : PyPath

/-- Embedding of `Run.__make_plot_folder`:
`unique_new_path(self.location / "plots")` followed by
`mkdir(parents=True, exist_ok=False)`.  The desired path
`self.location / "plots"` has stem `"plots"` and empty suffix. -/
def Run.make_plot_folder (run : Run) (fs : FS) : Except PyError (FS × PyPath) :=
  match mkdirParentsExcl fs (unique_new_path fs run.location "plots" "") with
  | .error e => .error e
  | .ok fs1 => .ok (fs1, unique_new_path fs run.location "plots" "")

/-- Embedding of `Run.plot`: make the plot folder, run the experiment's
plotters on the stored configuration/result pair, return the folder. -/
def Run.plot {ε : Type} (run : Run) (exp : Experiment ε) (savefigErr : Nat → Option ε)
    (st : PlotState) : PlotState × Except (PyError ⊕ ε) PyPath :=
  match run.make_plot_folder st.fs with
  | .error e => (st, .error (.inl e))
  | .ok (fs1, folder) =>
    match exp.plot savefigErr { st with fs := fs1 } run.config run.result folder with
    | (st1, some e) => (st1, .error e)
    | (st1, none) => (st1, .ok folder)

/-- Embedding of `Experiment.__call__`: make the run folder, dump the
configuration, invoke the procedure (the hook context variable is not
touched, so the procedure observes the ambient `context` unchanged),
dump the result, and plot when plotters are registered. -/
def Experiment.call {ε : Type} (exp : Experiment ε) (savefigErr : Nat → Option ε)
    (st : PlotState) (context : Option PyPath) (timestamp : String) (config : PyValue) :
    PlotState × Except (PyError ⊕ ε) Run :=
  match exp.make_folder st.fs timestamp with
  | .error e => (st, .error (.inl e))
  | .ok (fs1, folder) =>
    match dump_config fs1 config folder with
    | .error e => ({ st with fs := fs1 }, .error (.inl e))
    | .ok fs2 =>
      match exp.procedure config context with
      | .error e => ({ st with fs := fs2 }, .error (.inr e))
      | .ok result =>
        match dump_result fs2 result folder with
        | .error e => ({ st with fs := fs2 }, .error (.inl e))
        | .ok fs3 =>
          if exp.plotters.isEmpty then ({ st with fs := fs3 }, .ok ⟨config, result, folder⟩)
          else
            match Run.plot ⟨config, result, folder⟩ exp savefigErr { st with fs := fs3 } with
            | (st4, .error e) => (st4, .error e)
            | (st4, .ok _) => (st4, .ok ⟨config, result, folder⟩)

/-- Embedding of `Experiment.__contains__`. -/
def Experiment.contains {ε : Type} (exp : Experiment ε) (fs : FS) (item : Loc) : Bool :=
  has_config fs (exp.folder (some item)) && has_result fs (exp.folder (some item))

/-- Embedding of `Experiment.__getitem__`. -/
def Experiment.getitem {ε : Type} (exp : Experiment ε) (fs : FS) (item : Loc) :
    Except PyError Run :=
  let location := exp.folder (some item)
  match exp.config fs item with
  | .error e => .error e
  | .ok config =>
    match exp.result fs item with
    | .error e => .error e
    | .ok result => .ok ⟨config, result, location⟩

/-- Entries yielded by `base_folder.iterdir()`: the names of directories
and files that live immediately below `base` (directory-iteration order
is whatever order the model's lists happen to have). -/
def FS.childNames (fs : FS) (base : AbsPath) : List String :=
  fs.dirs.filterMap (fun d => if d.dropLast = base then d.getLast? else Option.none) ++
  fs.files.filterMap (fun e => if e.1.dropLast = base then e.1.getLast? else Option.none)

/-- The candidate items of `Experiment.__iter__` before filtering. -/
def Experiment.iterItems {ε : Type} (exp : Experiment ε) (fs : FS) : List PyPath :=
  let base := exp.folder Option.none
  (fs.childNames (fs.resolve base)).map (fun c => base.join [c])

/-- The items that survive the `item.is_dir() and item in self` filter of
`Experiment.__iter__`. -/
def Experiment.iterLocs {ε : Type} (exp : Experiment ε) (fs : FS) : List PyPath :=
  (exp.iterItems fs).filter (fun item => isDir fs item && exp.contains fs (.path item))

/-- Embedding of `Experiment.__iter__` (the lazy generator, as the list
of its elements). -/
def Experiment.iter {ε : Type} (exp : Experiment ε) (fs : FS) :
    List (Except PyError Run) :=
  (exp.iterLocs fs).map (fun item => exp.getitem fs (.path item))

/-! ### Elementary facts about the filesystem operations -/

theorem find?_filter_of_ne {α : Type} [DecidableEq α] {β : Type}
    (l : List (α × β)) (a b : α) (hne : b ≠ a) :
    (l.filter (fun e => ¬ e.1 = a)).find? (fun e => e.1 = b) =
      l.find? (fun e => e.1 = b) := by
  induction l with
  | nil => rfl
  | cons e es ih =>
    by_cases hea : e.1 = a
    · have hfilter : (e :: es).filter (fun e => ¬ e.1 = a) =
          es.filter (fun e => ¬ e.1 = a) := by
        simp [List.filter_cons, hea]
      have heb : (e.1 = b) = False := by simp [hea, Ne.symm hne]
      rw [hfilter, ih, List.find?_cons]
      simp [heb]
    · have hfilter : (e :: es).filter (fun e => ¬ e.1 = a) =
          e :: es.filter (fun e => ¬ e.1 = a) := by
        simp [List.filter_cons, hea]
      rw [hfilter, List.find?_cons, List.find?_cons]
      by_cases heb : e.1 = b
      · simp [heb]
      · simp only [heb, decide_False]
        exact ih

theorem readFileAbs?_setFileAbs_self (fs : FS) (a : AbsPath) (c : FileContent) :
    readFileAbs? (setFileAbs fs a c) a = some c := by
  simp [readFileAbs?, setFileAbs, List.find?_cons]

theorem readFileAbs?_setFileAbs_ne (fs : FS) (a b : AbsPath) (c : FileContent)
    (hne : b ≠ a) : readFileAbs? (setFileAbs fs a c) b = readFileAbs? fs b := by
  simp only [readFileAbs?, setFileAbs, List.find?_cons]
  have : ((a, c).1 = b) = False := by simp [Ne.symm hne]
  simp only [this, decide_False]
  rw [find?_filter_of_ne]
  exact hne

theorem setFileAbs_dirs (fs : FS) (a : AbsPath) (c : FileContent) :
    (setFileAbs fs a c).dirs = fs.dirs := rfl

theorem setFileAbs_cwd (fs : FS) (a : AbsPath) (c : FileContent) :
    (setFileAbs fs a c).cwd = fs.cwd := rfl

theorem mkdirParentsExcl_ok {fs fs' : FS} {p : PyPath}
    (h : mkdirParentsExcl fs p = .ok fs') :
    fs'.cwd = fs.cwd ∧ fs'.files = fs.files ∧ fs.dirs ⊆ fs'.dirs ∧
    fs.resolve p ∈ fs'.dirs ∧ pathExistsAbs fs (fs.resolve p) = false ∧
    fs'.dirs = (fs.resolve p).inits.filter (fun q => ¬ q ∈ fs.dirs) ++ fs.dirs := by
  rw [mkdirParentsExcl] at h
  split at h
  · exact absurd h (by simp)
  · next hex =>
    split at h
    · exact absurd h (by simp)
    · next hpre =>
      have hfs : { fs with
          dirs := (fs.resolve p).inits.filter (fun q => ¬ q ∈ fs.dirs) ++ fs.dirs } = fs' := by
        injection h
      subst hfs
      have hexf : pathExistsAbs fs (fs.resolve p) = false := by
        simpa using hex
      have hnd : fs.resolve p ∉ fs.dirs := by
        intro hmem
        rw [pathExistsAbs] at hexf
        simp [hmem] at hexf
      refine ⟨rfl, rfl, fun d hd => List.mem_append_right _ hd, ?_, hexf, rfl⟩
      apply List.mem_append_left
      rw [List.mem_filter]
      refine ⟨(List.mem_inits _ _).mpr (List.prefix_refl _), by simpa using hnd⟩

theorem mkdirParentsExcl_exists {fs : FS} {p : PyPath}
    (h : pathExistsAbs fs (fs.resolve p) = true) :
    mkdirParentsExcl fs p = .error .fileExistsError := by
  rw [mkdirParentsExcl]
  simp only [h]
  rfl

theorem mkdirOk_ok {fs fs' : FS} {p : PyPath} (h : mkdirOk fs p = .ok fs') :
    fs'.cwd = fs.cwd ∧ fs'.files = fs.files ∧ fs.dirs ⊆ fs'.dirs ∧
    fs.resolve p ∈ fs'.dirs := by
  rw [mkdirOk] at h
  split at h
  · next hmem =>
    have : fs = fs' := by injection h
    subst this
    exact ⟨rfl, rfl, fun d hd => hd, hmem⟩
  · next hmem =>
    split at h
    · exact absurd h (by simp)
    · have hfs : { fs with dirs := fs.resolve p :: fs.dirs } = fs' := by injection h
      subst hfs
      exact ⟨rfl, rfl, fun d hd => List.mem_cons_of_mem _ hd, List.mem_cons_self _ _⟩

theorem dump_ok {fs fs' : FS} {obj : PyValue} {p : PyPath}
    (h : dump fs obj p = .ok fs') :
    fs'.cwd = fs.cwd ∧ fs'.dirs = fs.dirs ∧
    fs' = setFileAbs fs (fs.resolve p) (.blob (pickle obj)) := by
  rw [dump] at h
  split at h
  · exact absurd h (by simp)
  · split at h
    · exact absurd h (by simp)
    · have : setFileAbs fs (fs.resolve p) (.blob (pickle obj)) = fs' := by injection h
      subst this
      exact ⟨rfl, rfl, rfl⟩

theorem dump_config_ok {fs fs' : FS} {config : PyValue} {folder : PyPath}
    (h : dump_config fs config folder = .ok fs') :
    fs'.cwd = fs.cwd ∧ fs'.dirs = fs.dirs ∧
    fs' = setFileAbs fs (fs.resolve (folder.join ["config.pkl"]))
      (.blob (pickle config)) := by
  rw [dump_config] at h
  split at h
  · exact dump_ok h
  · exact absurd h (by simp)

theorem dump_result_ok {fs fs' : FS} {result : PyValue} {folder : PyPath}
    (h : dump_result fs result folder = .ok fs') :
    fs'.cwd = fs.cwd ∧ fs'.dirs = fs.dirs ∧
    fs' = setFileAbs fs (fs.resolve (folder.join ["result.pkl"]))
      (.blob (pickle result)) := by
  rw [dump_result] at h
  split at h
  · exact dump_ok h
  · exact absurd h (by simp)

theorem dump_figure_fs {ε : Type} (p : Plotter) (sf : Nat → Option ε)
    (st : PlotState) (fg : Nat) (folder : PyPath) (nm : String) :
    ((p.dump_figure sf st fg folder nm).1.fs.cwd = st.fs.cwd ∧
     (p.dump_figure sf st fg folder nm).1.fs.dirs = st.fs.dirs) := by
  rw [Plotter.dump_figure]
  split <;> simp [setFile, setFileAbs]

theorem dumpEntries_fs {ε : Type} (p : Plotter) (sf : Nat → Option ε)
    (folder : PyPath) :
    ∀ (entries : List (String × Nat)) (st : PlotState),
      ((p.dumpEntries sf folder st entries).1.fs.cwd = st.fs.cwd ∧
       (p.dumpEntries sf folder st entries).1.fs.dirs = st.fs.dirs) := by
  intro entries
  induction entries with
  | nil => intro st; exact ⟨rfl, rfl⟩
  | cons e rest ih =>
    intro st
    obtain ⟨nm, fg⟩ := e
    rw [Plotter.dumpEntries]
    have hfig := dump_figure_fs p sf st fg folder nm
    split
    · next st1 er heq =>
      rw [heq] at hfig
      exact hfig
    · next st1 heq =>
      have hrec := ih st1
      rw [heq] at hfig
      exact ⟨hfig.1 ▸ hrec.1, hfig.2 ▸ hrec.2⟩

theorem plotterCall_fs {ε : Type} (p : Plotter) (sf : Nat → Option ε)
    (st : PlotState) (config result : PyValue) (directory : PyPath) :
    ((p.call sf st config result directory).1.fs.cwd = st.fs.cwd ∧
     st.fs.dirs ⊆ (p.call sf st config result directory).1.fs.dirs) := by
  rw [Plotter.call]
  split
  · -- mapping case
    next entries hartist =>
    split
    · exact ⟨rfl, fun d hd => hd⟩
    · next fs1 hmk =>
      obtain ⟨hc, _, hsub, _⟩ := mkdirOk_ok hmk
      have hde := dumpEntries_fs p sf (directory.join [p.artistName]) entries
        { st with fs := fs1 }
      split
      · next st1 er heq =>
        rw [heq] at hde
        exact ⟨hde.1.trans hc, fun d hd => hde.2 ▸ hsub hd⟩
      · next st1 heq =>
        rw [heq] at hde
        exact ⟨hde.1.trans hc, fun d hd => hde.2 ▸ hsub hd⟩
  · -- single case
    next fg hartist =>
    have hfig := dump_figure_fs p sf st fg directory p.artistName
    split
    · next st1 er heq =>
      rw [heq] at hfig
      exact ⟨hfig.1, fun d hd => hfig.2 ▸ hd⟩
    · next st1 heq =>
      rw [heq] at hfig
      exact ⟨hfig.1, fun d hd => hfig.2 ▸ hd⟩

theorem plotAll_fs {ε : Type} (sf : Nat → Option ε) :
    ∀ (ps : List Plotter) (st : PlotState) (config result : PyValue) (folder : PyPath),
      ((plotAll sf st ps config result folder).1.fs.cwd = st.fs.cwd ∧
       st.fs.dirs ⊆ (plotAll sf st ps config result folder).1.fs.dirs) := by
  intro ps
  induction ps with
  | nil => intro st config result folder; exact ⟨rfl, fun d hd => hd⟩
  | cons p rest ih =>
    intro st config result folder
    rw [plotAll]
    have hcall := plotterCall_fs p sf st config result folder
    split
    · next st1 er heq =>
      rw [heq] at hcall
      exact hcall
    · next st1 heq =>
      rw [heq] at hcall
      have hrec := ih st1 config result folder
      exact ⟨hrec.1.trans hcall.1, fun d hd => hrec.2 (hcall.2 hd)⟩

theorem runPlot_fs {ε : Type} (run : Run) (exp : Experiment ε) (sf : Nat → Option ε)
    (st : PlotState) :
    ((run.plot exp sf st).1.fs.cwd = st.fs.cwd ∧
     st.fs.dirs ⊆ (run.plot exp sf st).1.fs.dirs) := by
  rw [Run.plot]
  split
  · exact ⟨rfl, fun d hd => hd⟩
  · next fs1 folder hmk =>
    rw [Run.make_plot_folder] at hmk
    split at hmk
    · exact absurd hmk (by simp)
    · next fs1' hmk' =>
      obtain ⟨hfe1, hfe2⟩ : fs1' = fs1 ∧ unique_new_path st.fs run.location "plots" "" = folder := by
        have := hmk
        injection this with h1
        injection h1 with h2 h3
        exact ⟨h2, h3⟩
      obtain ⟨hc, _, hsub, _⟩ := mkdirParentsExcl_ok hmk'
      rw [hfe1] at hc hsub
      have hpa := plotAll_fs sf exp.plotters { st with fs := fs1 } run.config run.result folder
      rw [Experiment.plot]
      split
      · next st1 er heq =>
        rw [heq] at hpa
        exact ⟨hpa.1.trans hc, fun d hd => hpa.2 (hsub hd)⟩
      · next st1 heq =>
        rw [heq] at hpa
        exact ⟨hpa.1.trans hc, fun d hd => hpa.2 (hsub hd)⟩

/-! ### Sample data used by the witnesses -/

/-- A store root directory containing one run folder named `x`. -/
def fsSampleResolver : FS := ⟨[], [["store"], ["store", "x"]], []⟩

/-- An empty filesystem: just the root directory. -/
def fsEmpty : FS := ⟨[], [[]], []⟩

/-- Plot state over the empty filesystem, no open figures. -/
def stEmpty : PlotState := ⟨fsEmpty, []⟩

/-! ### Claim theorems -/

/-- C7: `unique_new_path` returns the desired path unchanged when nothing
exists there; otherwise it returns the name with the counter suffix
`" (n)"` inserted before the extension, for the smallest `n ≥ 1` whose
name is free — it never returns a taken name and never skips a free
counter value. -/
theorem c7_resolver_minimal (fs : FS) (parent : PyPath) (stem suffix : String) :
    (pathExists fs (parent.join [stem ++ suffix]) = false →
      unique_new_path fs parent stem suffix = parent.join [stem ++ suffix]) ∧
    (pathExists fs (parent.join [stem ++ suffix]) = true →
      ∃ n, 1 ≤ n ∧
        unique_new_path fs parent stem suffix = parent.join [mkName stem n suffix] ∧
        pathExists fs (parent.join [mkName stem n suffix]) = false ∧
        ∀ m, 1 ≤ m → m < n →
          pathExists fs (parent.join [mkName stem m suffix]) = true) := by
  constructor
  · intro h
    rw [unique_new_path, h]
    rfl
  · intro h
    obtain ⟨k, hk, hfree⟩ := exists_free_counter fs parent stem suffix 1
    have hspec := findCounter_spec fs parent stem suffix
      (fs.dirs.length + fs.files.length + 1) 1 ⟨k, by omega, hfree⟩
    refine ⟨findCounter fs parent stem suffix 1 (fs.dirs.length + fs.files.length + 1),
      hspec.1, ?_, hspec.2.1, fun m h1 h2 => hspec.2.2 m h1 h2⟩
    rw [unique_new_path, h]
    rfl

/-- Witness for C7 at a store where the desired name `x` is taken. -/
theorem c7_witness :
    pathExists fsSampleResolver (PyPath.join ⟨true, ["store"]⟩ ["x"]) = true ∧
    ∃ n, 1 ≤ n ∧
      unique_new_path fsSampleResolver ⟨true, ["store"]⟩ "x" "" =
        PyPath.join ⟨true, ["store"]⟩ [mkName "x" n ""] ∧
      pathExists fsSampleResolver (PyPath.join ⟨true, ["store"]⟩ [mkName "x" n ""]) = false ∧
      ∀ m, 1 ≤ m → m < n →
        pathExists fsSampleResolver (PyPath.join ⟨true, ["store"]⟩ [mkName "x" m ""]) = true :=
  ⟨by decide, by
    have h := (c7_resolver_minimal fsSampleResolver ⟨true, ["store"]⟩ "x" "").2 (by decide)
    simpa using h⟩

/-- C9: for every value the serializer accepts, loading the blob produced
by dumping the value yields a structurally equal value. -/
theorem c9_round_trip (fs : FS) (obj : PyValue) (p : PyPath)
    (hdir : ¬ fs.resolve p ∈ fs.dirs)
    (hparent : isDirAbs fs (fs.resolve p).dropLast = true) :
    ∃ fs', dump fs obj p = .ok fs' ∧ load fs' p = .ok obj := by
  have hdump : dump fs obj p = .ok (setFileAbs fs (fs.resolve p) (.blob (pickle obj))) := by
    rw [dump]
    simp only [hdir, if_false, hparent]
    rfl
  refine ⟨_, hdump, ?_⟩
  have hresolve : (setFileAbs fs (fs.resolve p) (.blob (pickle obj))).resolve p =
      fs.resolve p := by
    rw [FS.resolve, FS.resolve, setFileAbs]
  have hread : readFile? (setFileAbs fs (fs.resolve p) (.blob (pickle obj))) p =
      some (.blob (pickle obj)) := by
    rw [readFile?, hresolve, readFileAbs?_setFileAbs_self]
  have hex : pathExists (setFileAbs fs (fs.resolve p) (.blob (pickle obj))) p = true := by
    rw [pathExists, hresolve, pathExistsAbs, setFileAbs_dirs]
    have : readFileAbs? (setFileAbs fs (fs.resolve p) (.blob (pickle obj)))
        (fs.resolve p) = some (.blob (pickle obj)) := readFileAbs?_setFileAbs_self ..
    rw [this]
    simp
  rw [load, hex, hread]
  simp [unpickle_pickle]

/-- Witness for C9 on a nested sample value. -/
theorem c9_witness :
    (¬ fsEmpty.resolve ⟨true, ["cfg.pkl"]⟩ ∈ fsEmpty.dirs) ∧
    ∃ fs', dump fsEmpty (PyValue.pyList [PyValue.pyInt 3,
        PyValue.pyDict [("a", PyValue.pyStr "b")]]) ⟨true, ["cfg.pkl"]⟩ = .ok fs' ∧
      load fs' ⟨true, ["cfg.pkl"]⟩ = .ok (PyValue.pyList [PyValue.pyInt 3,
        PyValue.pyDict [("a", PyValue.pyStr "b")]]) :=
  ⟨by decide, c9_round_trip fsEmpty _ ⟨true, ["cfg.pkl"]⟩ (by decide) (by decide)⟩

/-- C10: `lookup`/`contains` resolve a string location to
`<root>/<store-name>/<string>`, but use a path-valued location verbatim,
so a relative path value is resolved against the process working
directory rather than the store root. -/
theorem c10_location_resolution {ε : Type} (exp : Experiment ε) (fs : FS)
    (s : String) (p : PyPath) (hrel : p.absolute = false) :
    exp.folder (some (.str s)) =
      ⟨exp.directory.absolute, exp.directory.comps ++ [exp.name, s]⟩ ∧
    exp.folder (some (.path p)) = p ∧
    fs.resolve p = fs.cwd ++ p.comps ∧
    exp.contains fs (.path p) =
      (pathExistsAbs fs (fs.cwd ++ p.comps ++ ["config.pkl"]) &&
       pathExistsAbs fs (fs.cwd ++ p.comps ++ ["result.pkl"])) ∧
    (∀ run, exp.getitem fs (.path p) = .ok run → run.location = p) := by
  have hres : fs.resolve p = fs.cwd ++ p.comps := by
    rw [FS.resolve, hrel]
    simp
  have hresj : ∀ xs, fs.resolve (p.join xs) = fs.cwd ++ p.comps ++ xs := by
    intro xs
    rw [resolve_join, hres]
  refine ⟨rfl, rfl, hres, ?_, ?_⟩
  · rw [Experiment.contains, has_config, has_result]
    rw [Experiment.folder]
    rw [pathExists, pathExists, hresj, hresj]
  · intro run h
    rw [Experiment.getitem] at h
    split at h
    · exact absurd h (by simp)
    · split at h
      · exact absurd h (by simp)
      · injection h with h2
        rw [← h2]
        rfl

/-- Witness for C10 with a relative path value. -/
theorem c10_witness :
    ((⟨false, ["rel", "run"]⟩ : PyPath).absolute = false) ∧
    ((⟨true, ["runs"]⟩ : PyPath).absolute = true) ∧
    (Experiment.folder (ε := Unit)
        ⟨fun _ _ => .ok PyValue.pyNone, ⟨true, ["runs"]⟩, "e", []⟩
        (some (.path ⟨false, ["rel", "run"]⟩)) = ⟨false, ["rel", "run"]⟩) ∧
    fsSampleResolver.resolve ⟨false, ["rel", "run"]⟩ =
      fsSampleResolver.cwd ++ ["rel", "run"] := by
  have h := c10_location_resolution (ε := Unit)
    ⟨fun _ _ => .ok PyValue.pyNone, ⟨true, ["runs"]⟩, "e", []⟩ fsSampleResolver
    "loc" ⟨false, ["rel", "run"]⟩ (by decide)
  exact ⟨by decide, by decide, h.2.1, h.2.2.1⟩

/-- An experiment whose procedure reports the hook context it observes:
it raises an exception carrying the context value. -/
def probeExperiment : Experiment (Option PyPath) :=
  ⟨fun _ ctx => .error ctx, ⟨true, ["runs"]⟩, "probe", []⟩

/-- C1: the spec requires `Experiment.__call__` to install the active run
folder into the hook's context for the duration of the procedure call,
and the hook to fail with the no-active-context `ValueError` only outside
a run.  The sources never assign `_hook.context` anywhere, so the
procedure runs under the process-default context `None` and any hook use
during the run fails exactly like a use outside one.  This theorem
evaluates the code at the failing input: a `create` call whose procedure
observes the ambient context sees `None`, and the hook under context
`None` raises the `ValueError`. -/
theorem c1_hook_context_never_set :
    (probeExperiment.call (fun _ => none) stEmpty Option.none "2024-01-01" PyValue.pyNone).2 =
      .error (.inr Option.none) ∧
    hook fsEmpty Option.none "artifact.txt" = .error .valueError := by
  constructor
  · rfl
  · rfl

/-- A plotter whose artist draws the single figure `7`. -/
def plotterSingle : Plotter := ⟨fun _ _ => Plot.single 7, "artist", "pdf", false⟩

/-- Plot state holding figure `7` open over a filesystem with one target
folder. -/
def stFig : PlotState := ⟨⟨[], [["t"]], []⟩, [7]⟩

/-- C6 counterexample: when `savefig` raises, `Plotter.__dump_figure`
propagates the exception without reaching `plt.close`, so the figure
stays open — refuting release on every execution path. -/
theorem c6_counterexample :
    (plotterSingle.dump_figure (fun _ => some ()) stFig 7 ⟨true, ["t"]⟩ "a").2 = some () ∧
    7 ∈ (plotterSingle.dump_figure (fun _ => some ()) stFig 7 ⟨true, ["t"]⟩ "a").1.openFigs := by
  constructor
  · rfl
  · decide

/-- C6 amended: the figure is closed after a successful save; when
`savefig` raises, the exception propagates unchanged and the figure is
not closed (the state is returned exactly as it was). -/
theorem c6_dump_figure_release {ε : Type} (p : Plotter) (sf : Nat → Option ε)
    (st : PlotState) (fg : Nat) (folder : PyPath) (nm : String) :
    (sf fg = none →
      (p.dump_figure sf st fg folder nm).2 = none ∧
      fg ∉ (p.dump_figure sf st fg folder nm).1.openFigs) ∧
    (∀ e, sf fg = some e → p.dump_figure sf st fg folder nm = (st, some e)) := by
  constructor
  · intro h
    rw [Plotter.dump_figure, h]
    refine ⟨rfl, ?_⟩
    simp [List.mem_filter]
  · intro e h
    rw [Plotter.dump_figure, h]

/-- Witness for C6 (amended): a successful save closes figure `7`. -/
theorem c6_witness :
    (plotterSingle.dump_figure (fun _ => (none : Option Unit)) stFig 7 ⟨true, ["t"]⟩ "a").2 =
      none ∧
    7 ∉ (plotterSingle.dump_figure (fun _ => (none : Option Unit)) stFig 7
      ⟨true, ["t"]⟩ "a").1.openFigs :=
  (c6_dump_figure_release plotterSingle (fun _ => none) stFig 7 ⟨true, ["t"]⟩ "a").1 rfl

/-- A sample experiment over root `/runs` with name `e` and no plotters. -/
def expSample : Experiment Unit :=
  ⟨fun _ _ => .ok PyValue.pyNone, ⟨true, ["runs"]⟩, "e", []⟩

/-- A filesystem holding only the store root `/runs/e`. -/
def fsStoreOnly : FS := ⟨[], [[], ["runs"], ["runs", "e"]], []⟩

/-- A store holding one run folder `r1` that contains a config blob but
no result blob. -/
def fsOnlyConfig : FS :=
  ⟨[], [[], ["runs"], ["runs", "e"], ["runs", "e", "r1"]],
    [(["runs", "e", "r1", "config.pkl"], .blob (pickle PyValue.pyNone))]⟩

/-- C3 counterexample: looking up a folder that does not exist at all
fails with `AssertionError` (from `assert folder.is_dir()` in
`load_config`), which is not the NotFound error class the claim
requires. -/
theorem c3_counterexample :
    Experiment.getitem expSample fsStoreOnly (.str "missing") = .error .assertionError ∧
    PyError.assertionError ≠ PyError.fileNotFoundError := by
  exact ⟨rfl, by decide⟩

/-- C3 amended: a folder lacking either blob is invisible to `contains`
and `iterate`; `lookup` on an existing folder missing a blob fails with
the NotFound class (`FileNotFoundError`, raised before any I/O); but
`lookup` on a folder that does not exist at all fails with an assertion
error, not NotFound. -/
theorem c3_lookup_validity {ε : Type} (exp : Experiment ε) (fs : FS) (item : Loc) :
    (has_config fs (exp.folder (some item)) = false ∨
        has_result fs (exp.folder (some item)) = false →
      exp.contains fs item = false) ∧
    (∀ it : PyPath, has_config fs it = false ∨ has_result fs it = false →
      it ∉ exp.iterLocs fs) ∧
    (isDir fs (exp.folder (some item)) = true →
      has_config fs (exp.folder (some item)) = false →
      exp.getitem fs item = .error .fileNotFoundError) ∧
    (∀ c, isDir fs (exp.folder (some item)) = true →
      load_config fs (exp.folder (some item)) = .ok c →
      has_result fs (exp.folder (some item)) = false →
      exp.getitem fs item = .error .fileNotFoundError) ∧
    (isDir fs (exp.folder (some item)) = false →
      exp.getitem fs item = .error .assertionError) := by
  refine ⟨?_, ?_, ?_, ?_, ?_⟩
  · intro h
    rw [Experiment.contains]
    rcases h with h | h <;> simp [h]
  · intro it h hmem
    have hpred := (List.mem_filter.mp hmem).2
    simp only [Bool.and_eq_true] at hpred
    have hcont := hpred.2
    rw [Experiment.contains, Experiment.folder] at hcont
    simp only [Bool.and_eq_true] at hcont
    rcases h with h | h
    · rw [hcont.1] at h
      exact absurd h (by simp)
    · rw [hcont.2] at h
      exact absurd h (by simp)
  · intro hdir hnc
    have hload : load_config fs (exp.folder (some item)) = .error .fileNotFoundError := by
      rw [load_config, if_pos hdir, load, if_pos]
      rw [has_config] at hnc
      simp [hnc]
    rw [Experiment.getitem, Experiment.config, hload]
  · intro c hdir hloadc hnr
    have hload : load_result fs (exp.folder (some item)) = .error .fileNotFoundError := by
      rw [load_result, if_pos hdir, load, if_pos]
      rw [has_result] at hnr
      simp [hnr]
    rw [Experiment.getitem, Experiment.config, hloadc, Experiment.result, hload]
  · intro hdir
    have hload : load_config fs (exp.folder (some item)) = .error .assertionError := by
      rw [load_config, if_neg]
      simp [hdir]
    rw [Experiment.getitem, Experiment.config, hload]

/-- Witness for C3 on a run folder holding only a config blob: excluded
from `contains` and iteration, and `lookup` on it (and on a missing
folder) behaves as amended. -/
theorem c3_witness :
    Experiment.contains expSample fsOnlyConfig (.str "r1") = false ∧
    (⟨true, ["runs", "e", "r1"]⟩ : PyPath) ∉ expSample.iterLocs fsOnlyConfig ∧
    Experiment.getitem expSample fsOnlyConfig (.str "r1") = .error .fileNotFoundError ∧
    Experiment.getitem expSample fsOnlyConfig (.str "nope") = .error .assertionError := by
  have h := c3_lookup_validity expSample fsOnlyConfig (.str "r1")
  have hload : load_config fsOnlyConfig (expSample.folder (some (.str "r1"))) =
      .ok PyValue.pyNone := by
    rw [load_config, if_pos (by decide), load, if_neg (by decide)]
    have hrf : readFile? fsOnlyConfig
        ((expSample.folder (some (.str "r1"))).join ["config.pkl"]) =
        some (.blob (pickle PyValue.pyNone)) := rfl
    rw [hrf]
    simp [unpickle_pickle]
  refine ⟨h.1 (Or.inr (by decide)), h.2.1 _ (Or.inr (by decide)), ?_, ?_⟩
  · exact h.2.2.2.1 PyValue.pyNone (by decide) hload (by decide)
  · exact (c3_lookup_validity expSample fsOnlyConfig (.str "nope")).2.2.2.2 (by decide)

theorem resolve_congr {fs1 fs2 : FS} (h : fs1.cwd = fs2.cwd) (p : PyPath) :
    fs1.resolve p = fs2.resolve p := by
  rw [FS.resolve, FS.resolve, h]

theorem append_singleton_not_mem_inits (A : AbsPath) (x : String) :
    A ++ [x] ∉ A.inits := by
  intro h
  have hlen := ((List.mem_inits _ _).mp h).length_le
  simp at hlen

theorem not_mem_dirs_child {fs : FS} (hwf : FS.WF fs) {A : AbsPath} {x : String}
    (hA : pathExistsAbs fs A = false) : A ++ [x] ∉ fs.dirs := by
  intro hmem
  have hcl := hwf.2 (A ++ [x]) hmem (by simp)
  rw [List.dropLast_concat] at hcl
  rw [pathExistsAbs] at hA
  simp [hcl] at hA

theorem no_file_at_child {fs : FS} (hwf : FS.WF fs) {A : AbsPath} {x : String}
    (hA : pathExistsAbs fs A = false) : readFileAbs? fs (A ++ [x]) = none := by
  cases hrd : readFileAbs? fs (A ++ [x]) with
  | none => rfl
  | some c =>
    exfalso
    have hs : (readFileAbs? fs (A ++ [x])).isSome = true := by rw [hrd]; rfl
    have hmem := (readFileAbs?_isSome_iff fs _).mp hs
    rcases List.mem_map.mp hmem with ⟨e, he, hfst⟩
    have hp := hwf.1 e he
    rw [hfst] at hp
    have hdl := hp.2
    rw [List.dropLast_concat] at hdl
    rw [pathExistsAbs] at hA
    simp [hdl] at hA

theorem call_ok_facts {ε : Type} {exp : Experiment ε} {sf : Nat → Option ε}
    {st st' : PlotState} {ctx : Option PyPath} {ts : String} {cfg : PyValue} {run : Run}
    (h : exp.call sf st ctx ts cfg = (st', .ok run)) :
    run.location = (exp.folder Option.none).join [ts] ∧
    st'.fs.cwd = st.fs.cwd ∧
    st.fs.dirs ⊆ st'.fs.dirs ∧
    st.fs.resolve run.location ∈ st'.fs.dirs ∧
    pathExistsAbs st.fs (st.fs.resolve run.location) = false := by
  rw [Experiment.call] at h
  split at h
  · exact absurd h (by simp)
  · next fs1 folder hmf =>
    rw [Experiment.make_folder] at hmf
    split at hmf
    · exact absurd hmf (by simp)
    · next fs1' hmk =>
      have hpair : fs1' = fs1 ∧ (exp.folder Option.none).join [ts] = folder := by
        injection hmf with h1
        injection h1 with h2 h3
        exact ⟨h2, h3⟩
      obtain ⟨rfl, rfl⟩ := hpair
      obtain ⟨hcwd1, _, hsub1, hmem1, hnex1, _⟩ := mkdirParentsExcl_ok hmk
      split at h
      · exact absurd h (by simp)
      · next fs2 hdc =>
        obtain ⟨hcwd2, hdirs2, _⟩ := dump_config_ok hdc
        split at h
        · exact absurd h (by simp)
        · next result hpr =>
          split at h
          · exact absurd h (by simp)
          · next fs3 hdr =>
            obtain ⟨hcwd3, hdirs3, _⟩ := dump_result_ok hdr
            split at h
            · -- no plotters registered
              have h1 := congrArg Prod.fst h
              have h2 := congrArg Prod.snd h
              simp only at h1 h2
              injection h2 with h3
              subst h3
              rw [← h1]
              refine ⟨rfl, ?_, ?_, ?_, by simpa using hnex1⟩
              · show fs3.cwd = st.fs.cwd
                rw [hcwd3, hcwd2, hcwd1]
              · intro d hd
                show d ∈ fs3.dirs
                rw [hdirs3, hdirs2]
                exact hsub1 hd
              · show st.fs.resolve ((exp.folder Option.none).join [ts]) ∈ fs3.dirs
                rw [hdirs3, hdirs2]
                exact hmem1
            · -- plotters registered: a plot pass follows
              split at h
              · exact absurd h (by simp)
              · next st4 f4 hpl =>
                have h1 := congrArg Prod.fst h
                have h2 := congrArg Prod.snd h
                simp only at h1 h2
                injection h2 with h3
                subst h3
                rw [← h1]
                have hrp := runPlot_fs (Run.mk cfg result ((exp.folder Option.none).join [ts]))
                  exp sf { st with fs := fs3 }
                rw [hpl] at hrp
                have hrpc : st4.fs.cwd = fs3.cwd := hrp.1
                have hrpd : fs3.dirs ⊆ st4.fs.dirs := hrp.2
                refine ⟨rfl, ?_, ?_, ?_, by simpa using hnex1⟩
                · show st4.fs.cwd = st.fs.cwd
                  rw [hrpc, hcwd3, hcwd2, hcwd1]
                · intro d hd
                  show d ∈ st4.fs.dirs
                  apply hrpd
                  rw [hdirs3, hdirs2]
                  exact hsub1 hd
                · show st.fs.resolve ((exp.folder Option.none).join [ts]) ∈ st4.fs.dirs
                  apply hrpd
                  rw [hdirs3, hdirs2]
                  exact hmem1

/-- C4: run-folder creation allocates exactly one timestamp-named folder
and creates it exclusively: if the exact target already exists, `create`
fails with the collision error (`FileExistsError`), leaving the state
untouched (no overwrite, no alternate name); and two successful `create`
calls always occupy distinct folder names. -/
theorem c4_create_exclusive {ε : Type} (exp : Experiment ε) (sf : Nat → Option ε)
    (st : PlotState) (ctx : Option PyPath) (ts1 ts2 : String) (cfg1 cfg2 : PyValue) :
    (pathExistsAbs st.fs (st.fs.resolve ((exp.folder Option.none).join [ts1])) = true →
      exp.call sf st ctx ts1 cfg1 = (st, .error (.inl .fileExistsError))) ∧
    (∀ st1 run1 st2 run2,
      exp.call sf st ctx ts1 cfg1 = (st1, .ok run1) →
      exp.call sf st1 ctx ts2 cfg2 = (st2, .ok run2) →
      run1.location ≠ run2.location) := by
  constructor
  · intro hex
    have hmf : exp.make_folder st.fs ts1 = .error .fileExistsError := by
      rw [Experiment.make_folder, mkdirParentsExcl_exists hex]
    rw [Experiment.call, hmf]
  · intro st1 run1 st2 run2 h1 h2
    obtain ⟨_, hcwd1, _, hmem1, _⟩ := call_ok_facts h1
    obtain ⟨_, _, _, _, hnex2⟩ := call_ok_facts h2
    intro heq
    have hres : st1.fs.resolve run2.location = st.fs.resolve run2.location :=
      resolve_congr hcwd1 run2.location
    have hmem2 : st1.fs.resolve run2.location ∈ st1.fs.dirs := by
      rw [hres, ← heq]
      exact hmem1
    rw [pathExistsAbs] at hnex2
    simp [hmem2] at hnex2

/-- A plot state whose store already holds the timestamp folder `t`. -/
def stTaken : PlotState := ⟨⟨[], [[], ["runs"], ["runs", "e"], ["runs", "e", "t"]], []⟩, []⟩

/-- The always-successful savefig environment over `Unit` exceptions. -/
def sfUnit : Nat → Option Unit := fun _ => none

/-- Witness for C4: a collision fails with `FileExistsError` and leaves
the state unchanged; two successful creates get distinct folders. -/
theorem c4_witness :
    pathExistsAbs stTaken.fs
      (stTaken.fs.resolve ((expSample.folder Option.none).join ["t"])) = true ∧
    expSample.call sfUnit stTaken Option.none "t" PyValue.pyNone =
      (stTaken, .error (.inl .fileExistsError)) ∧
    (Run.mk PyValue.pyNone PyValue.pyNone ⟨true, ["runs", "e", "a"]⟩).location ≠
      (Run.mk PyValue.pyNone PyValue.pyNone ⟨true, ["runs", "e", "b"]⟩).location := by
  refine ⟨by decide, ?_, ?_⟩
  · exact (c4_create_exclusive expSample sfUnit stTaken Option.none "t" "x"
      PyValue.pyNone PyValue.pyNone).1 (by decide)
  · exact (c4_create_exclusive expSample sfUnit stEmpty Option.none "a" "b"
      PyValue.pyNone PyValue.pyNone).2 _ _ _ _ rfl rfl

theorem readFileAbs?_congr {fs1 fs2 : FS} (h : fs1.files = fs2.files) (a : AbsPath) :
    readFileAbs? fs1 a = readFileAbs? fs2 a := by
  rw [readFileAbs?, readFileAbs?, h]

/-- C5: the configuration is written before the procedure is invoked; a
raising procedure propagates its exception to the caller unmodified, no
result blob is written, and the run folder containing the config blob is
left on disk. -/
theorem c5_procedure_failure {ε : Type} (exp : Experiment ε) (sf : Nat → Option ε)
    (st : PlotState) (ctx : Option PyPath) (ts : String) (cfg : PyValue) (e : ε) (fs1 : FS)
    (hwf : FS.WF st.fs)
    (hmk : mkdirParentsExcl st.fs ((exp.folder Option.none).join [ts]) = .ok fs1)
    (hproc : exp.procedure cfg ctx = .error e) :
    ∃ fs', exp.call sf st ctx ts cfg = ({ st with fs := fs' }, .error (.inr e)) ∧
      isDir fs' ((exp.folder Option.none).join [ts]) = true ∧
      load_config fs' ((exp.folder Option.none).join [ts]) = .ok cfg ∧
      has_result fs' ((exp.folder Option.none).join [ts]) = false := by
  obtain ⟨hcwd1, hfiles1, hsub1, hmemA, hnexA, hdirs1⟩ := mkdirParentsExcl_ok hmk
  have hnotdirx : ∀ x : String,
      st.fs.resolve ((exp.folder Option.none).join [ts]) ++ [x] ∉ fs1.dirs := by
    intro x
    rw [hdirs1]
    intro hmem
    rcases List.mem_append.mp hmem with hm | hm
    · exact append_singleton_not_mem_inits _ _ (List.mem_filter.mp hm).1
    · exact not_mem_dirs_child hwf hnexA hm
  have hAc : fs1.resolve (((exp.folder Option.none).join [ts]).join ["config.pkl"]) =
      st.fs.resolve ((exp.folder Option.none).join [ts]) ++ ["config.pkl"] := by
    rw [resolve_congr hcwd1, resolve_join]
  have hexf : pathExists fs1 ((exp.folder Option.none).join [ts]) = true := by
    rw [pathExists, resolve_congr hcwd1, pathExistsAbs]
    simp [hmemA]
  have hparent : isDirAbs fs1
      ((st.fs.resolve ((exp.folder Option.none).join [ts]) ++ ["config.pkl"]).dropLast) =
      true := by
    rw [List.dropLast_concat, isDirAbs]
    simp [hmemA]
  have hdc : dump_config fs1 cfg ((exp.folder Option.none).join [ts]) =
      .ok (setFileAbs fs1
        (st.fs.resolve ((exp.folder Option.none).join [ts]) ++ ["config.pkl"])
        (.blob (pickle cfg))) := by
    rw [dump_config, if_pos hexf, dump, hAc]
    rw [if_neg (hnotdirx "config.pkl")]
    rw [if_neg (fun hc => hc hparent)]
  have hmf : exp.make_folder st.fs ts = .ok (fs1, (exp.folder Option.none).join [ts]) := by
    rw [Experiment.make_folder, hmk]
  have hcwd' : (setFileAbs fs1
      (st.fs.resolve ((exp.folder Option.none).join [ts]) ++ ["config.pkl"])
      (.blob (pickle cfg))).cwd = st.fs.cwd := by
    rw [setFileAbs_cwd, hcwd1]
  refine ⟨setFileAbs fs1
    (st.fs.resolve ((exp.folder Option.none).join [ts]) ++ ["config.pkl"])
    (.blob (pickle cfg)), ?_, ?_, ?_, ?_⟩
  · rw [Experiment.call]
    simp only [hmf, hdc, hproc]
  · rw [isDir, resolve_congr hcwd', isDirAbs, setFileAbs_dirs]
    simp [hmemA]
  · have hdirg : isDir (setFileAbs fs1
        (st.fs.resolve ((exp.folder Option.none).join [ts]) ++ ["config.pkl"])
        (.blob (pickle cfg))) ((exp.folder Option.none).join [ts]) = true := by
      rw [isDir, resolve_congr hcwd', isDirAbs, setFileAbs_dirs]
      simp [hmemA]
    rw [load_config, if_pos hdirg, load]
    have hAr : st.fs.resolve (((exp.folder Option.none).join [ts]).join ["config.pkl"]) =
        st.fs.resolve ((exp.folder Option.none).join [ts]) ++ ["config.pkl"] :=
      resolve_join st.fs ((exp.folder Option.none).join [ts]) ["config.pkl"]
    have hpe : pathExists (setFileAbs fs1
        (st.fs.resolve ((exp.folder Option.none).join [ts]) ++ ["config.pkl"])
        (.blob (pickle cfg))) (((exp.folder Option.none).join [ts]).join ["config.pkl"]) =
        true := by
      rw [pathExists, resolve_congr hcwd', hAr, pathExistsAbs,
        readFileAbs?_setFileAbs_self]
      simp
    rw [if_neg (fun hc => hc hpe)]
    rw [readFile?, resolve_congr hcwd', hAr, readFileAbs?_setFileAbs_self]
    simp [unpickle_pickle]
  · have hArr : st.fs.resolve (((exp.folder Option.none).join [ts]).join ["result.pkl"]) =
        st.fs.resolve ((exp.folder Option.none).join [ts]) ++ ["result.pkl"] :=
      resolve_join st.fs ((exp.folder Option.none).join [ts]) ["result.pkl"]
    rw [has_result, pathExists, resolve_congr hcwd', hArr, pathExistsAbs]
    have hne : st.fs.resolve ((exp.folder Option.none).join [ts]) ++ ["result.pkl"] ≠
        st.fs.resolve ((exp.folder Option.none).join [ts]) ++ ["config.pkl"] := by
      intro hcontra
      have := List.append_cancel_left hcontra
      simp at this
    have hd : st.fs.resolve ((exp.folder Option.none).join [ts]) ++ ["result.pkl"] ∉
        (setFileAbs fs1
          (st.fs.resolve ((exp.folder Option.none).join [ts]) ++ ["config.pkl"])
          (.blob (pickle cfg))).dirs := by
      rw [setFileAbs_dirs]
      exact hnotdirx "result.pkl"
    have hf : readFileAbs? (setFileAbs fs1
        (st.fs.resolve ((exp.folder Option.none).join [ts]) ++ ["config.pkl"])
        (.blob (pickle cfg)))
        (st.fs.resolve ((exp.folder Option.none).join [ts]) ++ ["result.pkl"]) = none := by
      rw [readFileAbs?_setFileAbs_ne _ _ _ _ hne, readFileAbs?_congr hfiles1]
      exact no_file_at_child hwf hnexA
    simp [hd, hf]

/-- An experiment whose procedure always raises. -/
def expFail : Experiment Unit := ⟨fun _ _ => .error (), ⟨true, ["runs"]⟩, "e", []⟩

/-- Witness for C5: a failing procedure on an empty store leaves a run
folder with a loadable config and no result, and the exception
propagates unchanged. -/
theorem c5_witness :
    FS.WF stEmpty.fs ∧
    ∃ fs', expFail.call sfUnit stEmpty Option.none "t" PyValue.pyNone =
        ({ stEmpty with fs := fs' }, .error (.inr ())) ∧
      isDir fs' ((expFail.folder Option.none).join ["t"]) = true ∧
      load_config fs' ((expFail.folder Option.none).join ["t"]) = .ok PyValue.pyNone ∧
      has_result fs' ((expFail.folder Option.none).join ["t"]) = false := by
  refine ⟨by decide, ?_⟩
  exact c5_procedure_failure expFail sfUnit stEmpty Option.none "t" PyValue.pyNone () _
    (by decide) rfl rfl

theorem string_append_right_cancel {a b c : String} (h : a ++ c = b ++ c) : a = b := by
  have hd := congrArg String.data h
  rw [String.data_append, String.data_append] at hd
  exact String.ext (List.append_cancel_right hd)

theorem entry_name_injective {nm nm' fmt : String}
    (h : nm ++ "." ++ fmt = nm' ++ "." ++ fmt) : nm = nm' :=
  string_append_right_cancel (string_append_right_cancel h)

theorem entry_path_injective (R : AbsPath) (fmt : String) :
    Function.Injective (fun nm => R ++ [nm ++ "." ++ fmt]) := by
  intro a b h
  simp only at h
  have h1 := List.append_cancel_left h
  simp only [List.cons.injEq, and_true] at h1
  exact entry_name_injective h1

theorem dumpEntries_spec {ε : Type} (p : Plotter) (sf : Nat → Option ε) (folder : PyPath) :
    ∀ (entries : List (String × Nat)) (st : PlotState),
      (∀ fg ∈ entries.map Prod.snd, sf fg = none) →
      (entries.map Prod.fst).Nodup →
      ((p.dumpEntries sf folder st entries).2 = none ∧
       (∀ e ∈ entries,
         readFileAbs? (p.dumpEntries sf folder st entries).1.fs
           (st.fs.resolve folder ++ [e.1 ++ "." ++ p.file_format]) =
           some (.figure e.2 p.file_format)) ∧
       (∀ a : AbsPath,
         (∀ nm ∈ entries.map Prod.fst,
           a ≠ st.fs.resolve folder ++ [nm ++ "." ++ p.file_format]) →
         readFileAbs? (p.dumpEntries sf folder st entries).1.fs a = readFileAbs? st.fs a)) := by
  intro entries
  induction entries with
  | nil =>
    intro st _ _
    exact ⟨rfl, by simp, fun a _ => rfl⟩
  | cons e rest ih =>
    intro st hsf hnd
    obtain ⟨nm, fg⟩ := e
    have hsfg : sf fg = none := hsf fg (by simp)
    have hdf : p.dump_figure sf st fg folder nm =
        ({ st with
            fs := setFile st.fs (folder.join [nm ++ "." ++ p.file_format])
              (.figure fg p.file_format),
            openFigs := st.openFigs.filter (fun g => ¬ g = fg) }, none) := by
      rw [Plotter.dump_figure, hsfg]
    have hstep : p.dumpEntries sf folder st ((nm, fg) :: rest) =
        p.dumpEntries sf folder
          { st with
            fs := setFile st.fs (folder.join [nm ++ "." ++ p.file_format])
              (.figure fg p.file_format),
            openFigs := st.openFigs.filter (fun g => ¬ g = fg) } rest := by
      rw [Plotter.dumpEntries, hdf]
    have hcwdW : (setFile st.fs (folder.join [nm ++ "." ++ p.file_format])
        (.figure fg p.file_format)).cwd = st.fs.cwd := rfl
    have hresW : ∀ q, (setFile st.fs (folder.join [nm ++ "." ++ p.file_format])
        (.figure fg p.file_format)).resolve q = st.fs.resolve q :=
      fun q => resolve_congr hcwdW q
    have hkey : st.fs.resolve (folder.join [nm ++ "." ++ p.file_format]) =
        st.fs.resolve folder ++ [nm ++ "." ++ p.file_format] := resolve_join ..
    have hsf' : ∀ fg' ∈ rest.map Prod.snd, sf fg' = none := by
      intro fg' hm
      exact hsf fg' (by simp [hm])
    have hnd' : (rest.map Prod.fst).Nodup := (List.nodup_cons.mp (by simpa using hnd)).2
    have hnmrest : nm ∉ rest.map Prod.fst := (List.nodup_cons.mp (by simpa using hnd)).1
    have hih := ih { st with
        fs := setFile st.fs (folder.join [nm ++ "." ++ p.file_format])
          (.figure fg p.file_format),
        openFigs := st.openFigs.filter (fun g => ¬ g = fg) } hsf' hnd'
    rw [hstep]
    refine ⟨hih.1, ?_, ?_⟩
    · intro e' he'
      rcases List.mem_cons.mp he' with rfl | he'
      · -- the head entry survives the remaining writes
        have hne : ∀ nm' ∈ rest.map Prod.fst,
            st.fs.resolve folder ++ [nm ++ "." ++ p.file_format] ≠
            st.fs.resolve folder ++ [nm' ++ "." ++ p.file_format] := by
          intro nm' hm hcontra
          have := entry_path_injective (st.fs.resolve folder) p.file_format hcontra
          exact hnmrest (this ▸ hm)
        have hunch := hih.2.2 (st.fs.resolve folder ++ [nm ++ "." ++ p.file_format]) (by
          intro nm' hm
          have h1 := hne nm' hm
          simpa [hresW] using h1)
        rw [hunch]
        show readFileAbs? (setFile st.fs (folder.join [nm ++ "." ++ p.file_format])
          (.figure fg p.file_format)) _ = _
        rw [setFile, ← hkey]
        exact readFileAbs?_setFileAbs_self ..
      · have := hih.2.1 e' he'
        simpa [hresW] using this
    · intro a ha
      have hahead : a ≠ st.fs.resolve folder ++ [nm ++ "." ++ p.file_format] :=
        ha nm (by simp)
      have harest : ∀ nm' ∈ rest.map Prod.fst,
          a ≠ (setFile st.fs (folder.join [nm ++ "." ++ p.file_format])
            (.figure fg p.file_format)).resolve folder ++ [nm' ++ "." ++ p.file_format] := by
        intro nm' hm
        rw [hresW]
        exact ha nm' (by simp [hm])
      rw [hih.2.2 a harest]
      show readFileAbs? (setFile st.fs (folder.join [nm ++ "." ++ p.file_format])
        (.figure fg p.file_format)) a = _
      rw [setFile]
      apply readFileAbs?_setFileAbs_ne
      rw [hkey]
      exact hahead

/-- C8: an artist returning an n-entry name → figure mapping produces
exactly the n files `<entryName>.<format>` inside a subfolder named after
the artist; an artist returning a single figure produces exactly one file
`<artistName>.<format>` directly in the target folder, with no subfolder
created. -/
theorem c8_plot_fanout {ε : Type} (p : Plotter) (sf : Nat → Option ε) (st : PlotState)
    (cfg res : PyValue) (directory : PyPath) :
    (∀ entries, p.artist cfg res = .mapping entries →
      (∀ fg ∈ entries.map Prod.snd, sf fg = none) →
      (entries.map Prod.fst).Nodup →
      (readFileAbs? st.fs (st.fs.resolve (directory.join [p.artistName]))).isSome = false →
      ((p.call sf st cfg res directory).2 = none ∧
       isDir (p.call sf st cfg res directory).1.fs (directory.join [p.artistName]) = true ∧
       (∀ e ∈ entries,
         readFileAbs? (p.call sf st cfg res directory).1.fs
           (st.fs.resolve (directory.join [p.artistName]) ++
             [e.1 ++ "." ++ p.file_format]) = some (.figure e.2 p.file_format)) ∧
       (∀ a : AbsPath,
         (∀ nm ∈ entries.map Prod.fst,
           a ≠ st.fs.resolve (directory.join [p.artistName]) ++
             [nm ++ "." ++ p.file_format]) →
         readFileAbs? (p.call sf st cfg res directory).1.fs a = readFileAbs? st.fs a) ∧
       (entries.map (fun e => st.fs.resolve (directory.join [p.artistName]) ++
         [e.1 ++ "." ++ p.file_format])).Nodup)) ∧
    (∀ fg, p.artist cfg res = .single fg → sf fg = none →
      ((p.call sf st cfg res directory).2 = none ∧
       readFileAbs? (p.call sf st cfg res directory).1.fs
         (st.fs.resolve (directory.join [p.artistName ++ "." ++ p.file_format])) =
         some (.figure fg p.file_format) ∧
       (∀ a : AbsPath,
         a ≠ st.fs.resolve (directory.join [p.artistName ++ "." ++ p.file_format]) →
         readFileAbs? (p.call sf st cfg res directory).1.fs a = readFileAbs? st.fs a) ∧
       (p.call sf st cfg res directory).1.fs.dirs = st.fs.dirs)) := by
  constructor
  · intro entries hart hsf hnd hfile
    have hmkex : ∃ fs1, mkdirOk st.fs (directory.join [p.artistName]) = .ok fs1 := by
      rw [mkdirOk]
      by_cases hmem : st.fs.resolve (directory.join [p.artistName]) ∈ st.fs.dirs
      · rw [if_pos hmem]
        exact ⟨_, rfl⟩
      · rw [if_neg hmem, if_neg (by simp [hfile])]
        exact ⟨_, rfl⟩
    obtain ⟨fs1, hmk⟩ := hmkex
    obtain ⟨hcwd1, hfiles1, hsub1, hmem1⟩ := mkdirOk_ok hmk
    have hde := dumpEntries_spec p sf (directory.join [p.artistName]) entries
      { st with fs := fs1 } hsf hnd
    have hcall : p.call sf st cfg res directory =
        ((p.dumpEntries sf (directory.join [p.artistName])
          { st with fs := fs1 } entries).1, none) := by
      rw [Plotter.call, hart, hmk]
      rcases hdval : p.dumpEntries sf (directory.join [p.artistName])
        { st with fs := fs1 } entries with ⟨st1, r⟩
      have h2 : r = none := by
        have := hde.1
        rw [hdval] at this
        exact this
      subst h2
      simp only [hdval]
    have hres1 : ∀ q, ({ st with fs := fs1 } : PlotState).fs.resolve q = st.fs.resolve q :=
      fun q => resolve_congr hcwd1 q
    have hrd1 : ∀ a, readFileAbs? fs1 a = readFileAbs? st.fs a :=
      fun a => readFileAbs?_congr hfiles1 a
    have hdefs := dumpEntries_fs p sf (directory.join [p.artistName]) entries
      { st with fs := fs1 }
    refine ⟨by rw [hcall], ?_, ?_, ?_, ?_⟩
    · rw [hcall, isDir]
      have hcwdfin : (p.dumpEntries sf (directory.join [p.artistName])
          { st with fs := fs1 } entries).1.fs.cwd = st.fs.cwd := by
        rw [hdefs.1]
        exact hcwd1
      rw [resolve_congr hcwdfin, isDirAbs, hdefs.2]
      simp [hmem1]
    · intro e he
      rw [hcall]
      have := hde.2.1 e he
      simpa [hres1] using this
    · intro a ha
      rw [hcall]
      have := hde.2.2 a (by
        intro nm hm
        rw [hres1]
        exact ha nm hm)
      rw [this]
      exact hrd1 a
    · have hmapmap : entries.map (fun e => st.fs.resolve (directory.join [p.artistName]) ++
          [e.1 ++ "." ++ p.file_format]) =
          (entries.map Prod.fst).map
            (fun nm => st.fs.resolve (directory.join [p.artistName]) ++
              [nm ++ "." ++ p.file_format]) := by
        rw [List.map_map]
        rfl
      rw [hmapmap]
      exact hnd.map (entry_path_injective _ _)
  · intro fg hart hsfg
    have hdf : p.dump_figure sf st fg directory p.artistName =
        ({ st with
            fs := setFile st.fs (directory.join [p.artistName ++ "." ++ p.file_format])
              (.figure fg p.file_format),
            openFigs := st.openFigs.filter (fun g => ¬ g = fg) }, none) := by
      rw [Plotter.dump_figure, hsfg]
    have hcall : p.call sf st cfg res directory =
        ({ st with
            fs := setFile st.fs (directory.join [p.artistName ++ "." ++ p.file_format])
              (.figure fg p.file_format),
            openFigs := st.openFigs.filter (fun g => ¬ g = fg) }, none) := by
      rw [Plotter.call, hart]
      simp only [hdf]
    refine ⟨by rw [hcall], ?_, ?_, ?_⟩
    · rw [hcall]
      show readFileAbs? (setFile st.fs
        (directory.join [p.artistName ++ "." ++ p.file_format])
        (.figure fg p.file_format)) _ = _
      rw [setFile]
      exact readFileAbs?_setFileAbs_self ..
    · intro a ha
      rw [hcall]
      show readFileAbs? (setFile st.fs
        (directory.join [p.artistName ++ "." ++ p.file_format])
        (.figure fg p.file_format)) a = _
      rw [setFile]
      exact readFileAbs?_setFileAbs_ne _ _ _ _ ha
    · rw [hcall]
      rfl

/-- A plotter whose artist draws a three-entry name → figure mapping. -/
def plotterMap : Plotter :=
  ⟨fun _ _ => Plot.mapping [("a", 1), ("b", 2), ("c", 3)], "art", "pdf", false⟩

/-- Plot state with a single target folder `/t`. -/
def stT : PlotState := ⟨⟨[], [["t"]], []⟩, []⟩

/-- Witness for C8: the three-entry mapping writes its three files inside
the artist subfolder, and a single-figure artist writes one file with no
subfolder. -/
theorem c8_witness :
    ((plotterMap.call sfUnit stT PyValue.pyNone PyValue.pyNone ⟨true, ["t"]⟩).2 = none ∧
     isDir (plotterMap.call sfUnit stT PyValue.pyNone PyValue.pyNone ⟨true, ["t"]⟩).1.fs
       (PyPath.join ⟨true, ["t"]⟩ ["art"]) = true ∧
     ([["t", "art", "a.pdf"], ["t", "art", "b.pdf"], ["t", "art", "c.pdf"]] :
       List AbsPath).Nodup) ∧
    ((plotterSingle.call sfUnit stT PyValue.pyNone PyValue.pyNone ⟨true, ["t"]⟩).2 = none ∧
     (plotterSingle.call sfUnit stT PyValue.pyNone PyValue.pyNone
       ⟨true, ["t"]⟩).1.fs.dirs = stT.fs.dirs) := by
  have hm := (c8_plot_fanout plotterMap sfUnit stT PyValue.pyNone PyValue.pyNone
    ⟨true, ["t"]⟩).1 [("a", 1), ("b", 2), ("c", 3)] rfl (by decide) (by decide) (by decide)
  have hs := (c8_plot_fanout plotterSingle sfUnit stT PyValue.pyNone PyValue.pyNone
    ⟨true, ["t"]⟩).2 7 rfl rfl
  exact ⟨⟨hm.1, hm.2.1, by decide⟩, hs.1, hs.2.2.2⟩

theorem dump_figure_unchanged {ε : Type} (p : Plotter) (sf : Nat → Option ε)
    (st : PlotState) (fg : Nat) (folder : PyPath) (nm : String) (a : AbsPath)
    (ha : ∀ t, a ≠ st.fs.resolve folder ++ t) :
    readFileAbs? (p.dump_figure sf st fg folder nm).1.fs a = readFileAbs? st.fs a := by
  rw [Plotter.dump_figure]
  split
  · rfl
  · show readFileAbs? (setFile st.fs (folder.join [nm ++ "." ++ p.file_format])
      (.figure fg p.file_format)) a = _
    rw [setFile]
    apply readFileAbs?_setFileAbs_ne
    rw [resolve_join]
    exact ha [nm ++ "." ++ p.file_format]

theorem dumpEntries_unchanged {ε : Type} (p : Plotter) (sf : Nat → Option ε)
    (folder : PyPath) :
    ∀ (entries : List (String × Nat)) (st : PlotState) (a : AbsPath),
      (∀ t, a ≠ st.fs.resolve folder ++ t) →
      readFileAbs? (p.dumpEntries sf folder st entries).1.fs a = readFileAbs? st.fs a := by
  intro entries
  induction entries with
  | nil => intro st a _; rfl
  | cons e rest ih =>
    intro st a ha
    obtain ⟨nm, fg⟩ := e
    rw [Plotter.dumpEntries]
    split
    · next st1 er heq =>
      have hd := dump_figure_unchanged p sf st fg folder nm a ha
      rw [heq] at hd
      exact hd
    · next st1 heq =>
      have hd := dump_figure_unchanged p sf st fg folder nm a ha
      have hc := dump_figure_fs p sf st fg folder nm
      rw [heq] at hd hc
      have ha' : ∀ t, a ≠ st1.fs.resolve folder ++ t := by
        intro t
        rw [resolve_congr hc.1]
        exact ha t
      rw [ih st1 a ha']
      exact hd

theorem plotterCall_unchanged {ε : Type} (p : Plotter) (sf : Nat → Option ε)
    (st : PlotState) (cfg res : PyValue) (directory : PyPath) (a : AbsPath)
    (ha : ∀ t, a ≠ st.fs.resolve directory ++ t) :
    readFileAbs? (p.call sf st cfg res directory).1.fs a = readFileAbs? st.fs a := by
  rw [Plotter.call]
  split
  · next entries hart =>
    split
    · rfl
    · next fs1 hmk =>
      obtain ⟨hcwd1, hfiles1, _, _⟩ := mkdirOk_ok hmk
      have ha' : ∀ t, a ≠ ({ st with fs := fs1 } : PlotState).fs.resolve
          (directory.join [p.artistName]) ++ t := by
        intro t
        have hr : ({ st with fs := fs1 } : PlotState).fs.resolve
            (directory.join [p.artistName]) = st.fs.resolve directory ++ [p.artistName] := by
          show fs1.resolve (directory.join [p.artistName]) = _
          rw [resolve_congr hcwd1, resolve_join]
        rw [hr, List.append_assoc]
        exact ha ([p.artistName] ++ t)
      have hd := dumpEntries_unchanged p sf (directory.join [p.artistName]) entries
        { st with fs := fs1 } a ha'
      split
      · next st1 er heq =>
        rw [heq] at hd
        rw [hd]
        exact readFileAbs?_congr hfiles1 a
      · next st1 heq =>
        rw [heq] at hd
        rw [hd]
        exact readFileAbs?_congr hfiles1 a
  · next fg hart =>
    split
    · next st1 er heq =>
      have hd := dump_figure_unchanged p sf st fg directory p.artistName a ha
      rw [heq] at hd
      exact hd
    · next st1 heq =>
      have hd := dump_figure_unchanged p sf st fg directory p.artistName a ha
      rw [heq] at hd
      exact hd

theorem plotAll_unchanged {ε : Type} (sf : Nat → Option ε) :
    ∀ (ps : List Plotter) (st : PlotState) (cfg res : PyValue) (folder : PyPath)
      (a : AbsPath),
      (∀ t, a ≠ st.fs.resolve folder ++ t) →
      readFileAbs? (plotAll sf st ps cfg res folder).1.fs a = readFileAbs? st.fs a := by
  intro ps
  induction ps with
  | nil => intro st cfg res folder a _; rfl
  | cons p rest ih =>
    intro st cfg res folder a ha
    rw [plotAll]
    have hpc := plotterCall_unchanged p sf st cfg res folder a ha
    have hpcf := plotterCall_fs p sf st cfg res folder
    split
    · next st1 er heq =>
      rw [heq] at hpc
      exact hpc
    · next st1 heq =>
      rw [heq] at hpc hpcf
      have ha' : ∀ t, a ≠ st1.fs.resolve folder ++ t := by
        intro t
        rw [resolve_congr hpcf.1]
        exact ha t
      rw [ih st1 cfg res folder a ha', hpc]

theorem runPlot_ok_facts {ε : Type} {run : Run} {exp : Experiment ε} {sf : Nat → Option ε}
    {st st' : PlotState} {f : PyPath}
    (h : run.plot exp sf st = (st', .ok f)) :
    f = unique_new_path st.fs run.location "plots" "" ∧
    st'.fs.cwd = st.fs.cwd ∧
    st.fs.resolve f ∈ st'.fs.dirs ∧
    (∀ a : AbsPath, (∀ t, a ≠ st.fs.resolve f ++ t) →
      readFileAbs? st'.fs a = readFileAbs? st.fs a) := by
  rw [Run.plot] at h
  split at h
  · exact absurd h (by simp)
  · next fs1 folder hmk =>
    rw [Run.make_plot_folder] at hmk
    split at hmk
    · exact absurd hmk (by simp)
    · next fs1' hmk' =>
      have hpair : fs1' = fs1 ∧ unique_new_path st.fs run.location "plots" "" = folder := by
        injection hmk with ha
        injection ha with hb hc
        exact ⟨hb, hc⟩
      obtain ⟨heqf, hfold⟩ := hpair
      obtain ⟨hcwd1, hfiles1, hsub1, hmem1, hnex1, _⟩ := mkdirParentsExcl_ok hmk'
      rw [heqf] at hcwd1 hfiles1 hsub1 hmem1
      rw [Experiment.plot] at h
      split at h
      · exact absurd h (by simp)
      · next st4 heq =>
        have hfst := congrArg Prod.fst h
        have hsnd := congrArg Prod.snd h
        simp only at hfst hsnd
        injection hsnd with hf
        subst hf
        subst hfst
        have hpa := plotAll_fs sf exp.plotters { st with fs := fs1 }
          run.config run.result folder
        rw [heq] at hpa
        have hcwd4 : st4.fs.cwd = st.fs.cwd := by
          have h1 : st4.fs.cwd = fs1.cwd := hpa.1
          rw [h1, hcwd1]
        refine ⟨hfold.symm, hcwd4, ?_, ?_⟩
        · apply hpa.2
          rw [← hfold]
          exact hmem1
        · intro a haf
          have ha' : ∀ t, a ≠ ({ st with fs := fs1 } : PlotState).fs.resolve folder ++ t := by
            intro t
            show a ≠ fs1.resolve folder ++ t
            rw [resolve_congr hcwd1]
            exact haf t
          have hun := plotAll_unchanged sf exp.plotters { st with fs := fs1 }
            run.config run.result folder a ha'
          rw [heq] at hun
          rw [hun]
          exact readFileAbs?_congr hfiles1 a

/-- C2 amended: `Run.plot` creates a fresh, uniquely named folder whose
parent is the run folder itself (named `plots`, or `plots (n)` on
repetition) — not a subfolder under `<run>/plots/` — writes the plots
inside it, and returns it; repeated calls produce distinct folders. -/
theorem c2_plot_folder {ε : Type} (run : Run) (exp : Experiment ε) (sf : Nat → Option ε)
    (st st1 st2 : PlotState) (f1 f2 : PyPath)
    (h1 : run.plot exp sf st = (st1, .ok f1))
    (h2 : run.plot exp sf st1 = (st2, .ok f2)) :
    (∃ nm, f1 = run.location.join [nm] ∧
      (nm = "plots" ∨ ∃ n, 1 ≤ n ∧ nm = mkName "plots" n "")) ∧
    pathExists st.fs f1 = false ∧
    isDir st1.fs f1 = true ∧
    (∀ a : AbsPath, (∀ t, a ≠ st.fs.resolve f1 ++ t) →
      readFileAbs? st1.fs a = readFileAbs? st.fs a) ∧
    f1 ≠ f2 := by
  obtain ⟨hf1, hcwd1, hmem1, hun1⟩ := runPlot_ok_facts h1
  obtain ⟨hf2, _, _, _⟩ := runPlot_ok_facts h2
  refine ⟨?_, ?_, ?_, hun1, ?_⟩
  · obtain ⟨nm, hshape, hnm⟩ := unique_new_path_shape st.fs run.location "plots" ""
    exact ⟨nm, hf1 ▸ hshape, hnm⟩
  · rw [hf1]
    exact unique_new_path_not_exists st.fs run.location "plots" ""
  · rw [isDir, resolve_congr hcwd1, isDirAbs]
    simp [hmem1]
  · intro heq
    have hex1 : pathExists st1.fs f1 = true := by
      rw [pathExists, resolve_congr hcwd1, pathExistsAbs]
      simp [hmem1]
    have hex2 : pathExists st1.fs f2 = false := by
      rw [hf2]
      exact unique_new_path_not_exists st1.fs run.location "plots" ""
    rw [heq, hex2] at hex1
    exact absurd hex1 (by simp)

/-- A run handle over the store folder `t1`. -/
def runC2 : Run := ⟨PyValue.pyNone, PyValue.pyNone, ⟨true, ["runs", "e", "t1"]⟩⟩

/-- Plot state whose store holds exactly the run folder `t1`. -/
def stC2 : PlotState := ⟨⟨[], [[], ["runs"], ["runs", "e"], ["runs", "e", "t1"]], []⟩, []⟩

/-- C2 counterexample: the folder created by the first `plot()` call is
`<run>/plots` itself — its parent is the run folder, not `<run>/plots` —
so the claim that the created folder's parent is `<run>/plots` is false. -/
theorem c2_counterexample :
    (runC2.plot expSample sfUnit stC2).2 = .ok ⟨true, ["runs", "e", "t1", "plots"]⟩ ∧
    (⟨true, ["runs", "e", "t1", "plots"]⟩ : PyPath).comps.dropLast ≠
      (runC2.location.join ["plots"]).comps := by
  constructor
  · rfl
  · decide

/-- Witness for C2 (amended): the first plot folder is fresh and differs
from the second one. -/
theorem c2_witness :
    pathExists stC2.fs (⟨true, ["runs", "e", "t1", "plots"]⟩ : PyPath) = false ∧
    (⟨true, ["runs", "e", "t1", "plots"]⟩ : PyPath) ≠
      ⟨true, ["runs", "e", "t1", "plots (1)"]⟩ := by
  have h := c2_plot_folder runC2 expSample sfUnit stC2 _ _ _ _ rfl rfl
  exact ⟨h.2.1, h.2.2.2.2⟩

end Expyro
